import Mathlib

/-!
Verification of the bounded queue-based concept-resolution exploration engine
of `agents/cd/find_concepts.py` (and its orchestrator), via a shallow
embedding of the Python source into Lean.

Conventions of the embedding:
* Python `int` is `Int`; depths and counters that the engine only ever treats
  as non-negative (`depth`, `visit_count`, `max_depth`, `max_visits`,
  `batch_size`, `stagnation_count`) are `Nat`, matching the claims'
  side-conditions `maxDepth ≥ 0`, `maxVisits ≥ 0`.
* A Python dict whose keys may be absent becomes a structure of `Option`
  fields; `d.get(k, default)` becomes `(field).getD default`.
* The external collaborators (wall clock, ATHENA gateway, LLM oracle) are an
  explicit environment `Env` of response functions; an oracle/LLM failure is
  `none`, which the engine code turns into its documented fallback.
* The `while` loop of `_process_single_concept_set` is embedded with an
  explicit fuel argument so that all definitions compute; the termination
  theorem shows that `max(max_visits, 1) + 1` fuel is always enough and that
  any larger fuel gives the same result, so the fuel is not a semantic bound.
-/

/-- Python `str.lower()` (ASCII case mapping, as in Lean's `Char.toLower`),
written over the character list so that it computes by kernel reduction. -/
def lowerStr (s : String) : String :=
  String.mk (s.data.map Char.toLower)

/-- Python `str.upper()`, over the character list. -/
def upperStr (s : String) : String :=
  String.mk (s.data.map Char.toUpper)

/-- Python `str.split()` (no separator): split on whitespace runs, dropping
empty tokens; `cur` is the reversed current token. -/
def ws_tokens : List Char → List Char → List (List Char)
  | [], cur => if cur.isEmpty then [] else [cur.reverse]
  | c :: rest, cur =>
    if c.isWhitespace then
      if cur.isEmpty then ws_tokens rest []
      else cur.reverse :: ws_tokens rest []
    else ws_tokens rest (c :: cur)

/-- Python `_norm`: `" ".join(str(s or "").strip().lower().split())` —
lowercase and collapse all whitespace runs to single spaces (`strip` is
subsumed by the whitespace split). -/
def normStr (s : String) : String :=
  String.mk (List.intercalate [' '] (ws_tokens (s.data.map Char.toLower) []))

/-- Python `str.split(" ")`: split at every single space, keeping empty
parts (so the empty string yields one empty part, as in Python). -/
def space_split : List Char → List Char → List (List Char)
  | [], cur => [cur.reverse]
  | c :: rest, cur =>
    if c = ' ' then cur.reverse :: space_split rest []
    else space_split rest (c :: cur)

/-- Python `tok in s` substring (contiguous) test over character lists; the
empty pattern is contained in every string, as in Python. -/
def contains_sub : List Char → List Char → Bool
  | [], pat => pat.isEmpty
  | c :: rest, pat => pat.isPrefixOf (c :: rest) || contains_sub rest pat

/-- Python `sig_tokens = [t for t in term_norm.split(" ") if len(t) >= 3]`. -/
def sigTokens (term_norm : String) : List (List Char) :=
  (space_split term_norm.data []).filter (fun t => 3 ≤ t.length)

/-- Python `_tokens_match(name)` of `_try_short_circuit_resolution`: every
significant token of the search term occurs in the normalized name; an empty
token list yields `false`. -/
def tokensMatch (sig_tokens : List (List Char)) (name : String) : Bool :=
  let s := normStr name
  if sig_tokens.isEmpty then false
  else sig_tokens.all (fun tok => contains_sub s.data tok)

/-- Concept detail payload (the CamelCase dict produced for
`find_concepts.py` by `tools._concept_to_camel_details`); every key the
engine reads may be absent, hence `Option` fields. An all-`none` value is the
empty-dict placeholder used on fetch failure. -/
structure ConceptDetails where
  id : Option Int := none
  conceptId : Option Int := none
  name : Option String := none
  conceptName : Option String := none
  standardConcept : Option String := none
  domainId : Option String := none
  vocabularyId : Option String := none
  conceptClassId : Option String := none
  conceptCode : Option String := none
  synonyms : Option (List String) := none

/-- One element of the `concepts` list built per batch in the main loop:
`{"concept_id": cid, "details": ..., "relationships": ...}`. The
relationship list is only forwarded to the LLM prompt and never touches
engine state, so it is not modelled. -/
structure FetchedConcept where
  concept_id : Int
  details : ConceptDetails

/-- Python `QueueItem`. -/
structure QueueItem where
  concept_id : Int
  depth : Nat := 0

/-- Entry of the `history` list (`dict[str, Any]` in the source; no code in
the engine ever constructs one, so its payload is irrelevant). -/
structure HistEntry where
  payload : List (String × String) := []

/-- The `evidence` dict `{"match_type": ...}` of the short-circuit rule. -/
structure MatchEvidence where
  match_type : String

/-- Entry of `accepted_concepts` / `included_concepts`, as built by
`_included_from_details`. -/
structure IncludedConcept where
  concept_id : Int
  concept_name : String
  domain_id : String
  vocabulary_id : String
  standard_concept : String
  concept_code : String

/-- Python `ConceptDecision` (one oracle verdict). -/
structure ConceptDecision where
  concept_id : Int
  is_standard : Bool
  is_correct_for_term : Bool
  suggested_new_candidates : List Int := []
  relationship_hint : String := ""
  reasoning : String := ""

/-- Return value of `_try_short_circuit_resolution`:
`{"concept_id": cid, "reason": ..., "evidence": {"match_type": ...}}`. -/
structure SCResult where
  concept_id : Option Int
  reason : String
  match_type : String

/-- Python `QueueState` of `find_concepts.py`. -/
structure QueueState where
  pending : List QueueItem := []
  visited : List Int := []
  depth_map : List (Int × Nat) := []
  history : List HistEntry := []
  iteration : Nat := 0
  visit_count : Nat := 0
  resolved : Bool := false
  resolved_concept : Option IncludedConcept := none
  best_fallback : Option IncludedConcept := none
  max_depth : Nat := 2
  max_visits : Nat := 50
  batch_size : Nat := 3
  stop_reason : Option String := none
  initial_candidates : List Int := []
  initial_message : Option String := none
  evidence : Option MatchEvidence := none
  last_head_id : Option Int := none
  stagnation_count : Nat := 0
  accepted_concepts : List IncludedConcept := []

/-- Python `ResolutionOutcome`. The `status` is kept as a string, as in the
source's `Literal["resolved", "fallback", "unresolved"]`. -/
structure ResolutionOutcome where
  status : String
  concept : Option IncludedConcept := none
  reason : String
  visit_count : Nat
  stop_reason : Option String := none
  pending_candidates : List Int := []
  history : List HistEntry := []
  evidence : Option MatchEvidence := none
  accepted_concepts : List IncludedConcept := []

/-- The dict returned by `_queue_next_batch`. -/
structure BatchInfo where
  ids : List Int
  depths : List Nat
  is_empty : Bool
  has_batch : Bool
  batch_count : Nat
  limit_reached : Bool
  depth_limit_hit : Bool
  resolved : Bool
  queue_length : Nat
  visit_count : Nat

/-- Python `_included_from_details(concept_id, details)`: build an
`included_concepts` entry from CamelCase details. `details.get("conceptId")
or concept_id` falls through on a falsy (absent, `None`, or `0`) value, then
`_coerce_int` of `None` yields `None`. -/
def included_from_details (concept_id : Option Int) (details : ConceptDetails) :
    Option IncludedConcept :=
  let cid : Option Int :=
    match details.conceptId with
    | some v => if v = 0 then concept_id else some v
    | none => concept_id
  match cid with
  | none => none
  | some c =>
    some { concept_id := c
           concept_name := details.conceptName.getD ""
           domain_id := details.domainId.getD ""
           vocabulary_id := details.vocabularyId.getD ""
           standard_concept := details.standardConcept.getD ""
           concept_code := details.conceptCode.getD "" }

/-- The domain-specific gating chain of `_try_short_circuit_resolution`
(the `if vocab == "SNOMED" ... elif ... elif ... elif ...` ladder), returning
the acceptance reason, or `none` when no branch matches. -/
def sc_gate (vocab cls : String) : Option String :=
  if vocab = "SNOMED" && (cls = "Disorder" || cls = "Clinical Finding") then
    some "SNOMED condition exact/strong match"
  else if vocab = "LOINC" && (cls = "Component" || cls = "LOINC Component") then
    some "LOINC component exact/strong match"
  else if vocab = "CPT4" then
    some "CPT4 procedure exact/strong match"
  else if (vocab = "RXNORM" || vocab = "RXNORM EXTENSION") &&
      (cls = "Ingredient" || cls = "Precise Ingredient") then
    some "RxNorm ingredient exact/strong match"
  else none

/-- The name list gathered for one candidate: `[str(name)] + synonyms` when
the `name` key is present, else the synonyms alone (a non-list `synonyms`
value degrades to `[]`). -/
def sc_names (details : ConceptDetails) : List String :=
  let syns := details.synonyms.getD []
  match details.name with
  | some n => n :: syns
  | none => syns

/-- `exact_match` for one candidate of `_try_short_circuit_resolution`. -/
def sc_exact_match (term_norm : String) (details : ConceptDetails) : Bool :=
  (sc_names details).any (fun n => normStr n = term_norm)

/-- `strong_token_match` for one candidate. -/
def sc_strong_match (sig_tokens : List (List Char)) (details : ConceptDetails) : Bool :=
  (sc_names details).any (fun n => tokensMatch sig_tokens n)

/-- The concept id reported by the short-circuit rule:
`_coerce_int(details.get("id") or concept_map.get("concept_id"))`; the
batch wrapper always carries an integer `concept_id`, so the result is
always `some`. -/
def sc_concept_id (c : FetchedConcept) : Option Int :=
  match c.details.id with
  | some v => if v = 0 then some c.concept_id else some v
  | none => some c.concept_id

/-- The per-candidate body of the scan loop of
`_try_short_circuit_resolution`: `some` iff this candidate resolves the scan
(standard flag, exact or strong lexical match, and a domain gate all hold). -/
def sc_check_concept (term_norm : String) (sig_tokens : List (List Char))
    (c : FetchedConcept) : Option SCResult :=
  let details := c.details
  let std := lowerStr (details.standardConcept.getD "") = "standard"
  let vocab := upperStr (details.vocabularyId.getD "")
  let cls := details.conceptClassId.getD ""
  let exact := sc_exact_match term_norm details
  let strong := sc_strong_match sig_tokens details
  if std && (exact || strong) then
    match sc_gate vocab cls with
    | some reason =>
      some { concept_id := sc_concept_id c
             reason := reason
             match_type := if exact then "exact" else "strong_token" }
    | none => none
  else none

/-- Python `_try_short_circuit_resolution(concepts, search_term, queue_state)`
(the `queue_state` parameter is unused in the source). First qualifying
candidate in batch order wins. -/
def try_short_circuit_resolution (concepts : List FetchedConcept)
    (search_term : String) : Option SCResult :=
  let term_norm := normStr search_term
  let sig_tokens := sigTokens term_norm
  concepts.findSome? (sc_check_concept term_norm sig_tokens)

/-- One step of the scan loop of `_queue_next_batch`: take the item into the
outgoing batch while the batch has room and the item is within the depth
bound, otherwise keep it in the new pending list (preserving order). -/
def scan_step (eff md : Nat) (acc : List Int × List Nat × List QueueItem)
    (item : QueueItem) : List Int × List Nat × List QueueItem :=
  if acc.1.length < eff && item.depth ≤ md then
    (acc.1 ++ [item.concept_id], acc.2.1 ++ [item.depth], acc.2.2)
  else
    (acc.1, acc.2.1, acc.2.2 ++ [item])

/-- Python `_queue_next_batch(queue_state)`: returns the batch-info dict and
the (possibly) updated state. Only the scan branch mutates the state
(consuming the dispatched items and bumping `iteration`). -/
def queue_next_batch (qs : QueueState) : BatchInfo × QueueState :=
  if qs.resolved then
    ({ ids := [], depths := [], is_empty := true, has_batch := false
       batch_count := 0, limit_reached := false, depth_limit_hit := false
       resolved := true, queue_length := qs.pending.length
       visit_count := qs.visit_count }, qs)
  else if qs.max_visits ≤ qs.visit_count then
    ({ ids := [], depths := [], is_empty := true, has_batch := false
       batch_count := 0, limit_reached := true, depth_limit_hit := false
       resolved := qs.resolved, queue_length := qs.pending.length
       visit_count := qs.visit_count }, qs)
  else
    match qs.pending with
    | [] =>
      ({ ids := [], depths := [], is_empty := true, has_batch := false
         batch_count := 0, limit_reached := false, depth_limit_hit := false
         resolved := qs.resolved, queue_length := 0
         visit_count := qs.visit_count }, qs)
    | first :: _ =>
      if qs.max_depth < first.depth then
        ({ ids := [], depths := [], is_empty := true, has_batch := false
           batch_count := 0, limit_reached := false, depth_limit_hit := true
           resolved := qs.resolved, queue_length := 0
           visit_count := qs.visit_count }, qs)
      else
        let effective_batch := min qs.batch_size (qs.max_visits - qs.visit_count)
        let scan := qs.pending.foldl
          (scan_step effective_batch qs.max_depth) ([], [], [])
        ({ ids := scan.1, depths := scan.2.1, is_empty := scan.1.isEmpty
           has_batch := !scan.1.isEmpty, batch_count := scan.1.length
           limit_reached := false, depth_limit_hit := false
           resolved := qs.resolved, queue_length := scan.2.2.length
           visit_count := qs.visit_count },
         { qs with pending := scan.2.2, iteration := qs.iteration + 1 })

/-- The "mark as visited" head of `_update_queue_from_batch`: every id of the
dispatched batch is appended to `visited` if new, and `visit_count` is
incremented once per id (duplicates included). -/
def mark_visited (qs : QueueState) (ids : List Int) : QueueState :=
  ids.foldl
    (fun s cid =>
      { s with
        visited := if cid ∈ s.visited then s.visited else s.visited ++ [cid]
        visit_count := s.visit_count + 1 })
    qs

/-- The "collect accepted anchors" part of `_update_queue_from_batch`. -/
def collect_accepted (qs : QueueState) (concepts : List FetchedConcept)
    (decisions : List ConceptDecision) : QueueState :=
  decisions.enum.foldl
    (fun s p =>
      let decision := p.2
      if decision.is_standard && decision.is_correct_for_term then
        let details := match concepts[p.1]? with
          | some c => c.details
          | none => {}
        match included_from_details (some decision.concept_id) details with
        | none => s
        | some inc =>
          if s.accepted_concepts.all
              (fun x => decide (x.concept_id ≠ decision.concept_id)) then
            { s with accepted_concepts := s.accepted_concepts ++ [inc] }
          else s
      else s)
    qs

/-- The "add suggested candidates" tail of `_update_queue_from_batch`: each
suggested id not yet visited and not pending is enqueued at the parent's
depth plus one, but only when that child depth stays within `max_depth`. -/
def add_suggested (qs : QueueState) (depths : List Nat)
    (decisions : List ConceptDecision) : QueueState :=
  decisions.enum.foldl
    (fun s p =>
      let depth := (depths[p.1]?).getD 0
      p.2.suggested_new_candidates.foldl
        (fun s2 sid =>
          if sid ∉ s2.visited &&
              s2.pending.all (fun item => decide (item.concept_id ≠ sid)) then
            let child_depth := depth + 1
            if child_depth ≤ s2.max_depth then
              { s2 with
                pending := s2.pending ++ [{ concept_id := sid, depth := child_depth }]
                depth_map := s2.depth_map ++ [(sid, child_depth)] }
            else s2
          else s2)
        s)
    qs

/-- Python `_update_queue_from_batch(queue_state, ids, depths, concepts,
decisions)`. -/
def update_queue_from_batch (qs : QueueState) (ids : List Int)
    (depths : List Nat) (concepts : List FetchedConcept)
    (decisions : List ConceptDecision) : QueueState :=
  let qs1 := mark_visited qs ids
  let qs2 := { qs1 with
    pending := qs1.pending.filter (fun item => decide (item.concept_id ∉ ids)) }
  let qs3 := collect_accepted qs2 concepts decisions
  add_suggested qs3 depths decisions

/-- Python `_finalize_resolution(queue_state)`. -/
def finalize_resolution (qs : QueueState) : ResolutionOutcome :=
  if !qs.accepted_concepts.isEmpty then
    { status := "resolved", concept := none
      reason := qs.stop_reason.getD "accepted_matches"
      visit_count := qs.visit_count, stop_reason := qs.stop_reason
      pending_candidates := qs.pending.map (fun item => item.concept_id)
      history := qs.history, evidence := qs.evidence
      accepted_concepts := qs.accepted_concepts }
  else
    match qs.best_fallback with
    | some fb =>
      { status := "fallback", concept := some fb
        reason := "best_nonstandard_match"
        visit_count := qs.visit_count, stop_reason := qs.stop_reason
        pending_candidates := qs.pending.map (fun item => item.concept_id)
        history := qs.history, evidence := qs.evidence
        accepted_concepts := [] }
    | none =>
      { status := "unresolved", concept := none
        reason := qs.stop_reason.getD "exhausted"
        visit_count := qs.visit_count, stop_reason := qs.stop_reason
        pending_candidates := qs.pending.map (fun item => item.concept_id)
        history := qs.history, evidence := qs.evidence
        accepted_concepts := [] }

/-- One raw ATHENA search hit, as consumed by `_process_single_concept_set`
(only its `concept_id` key is ever read by engine logic: the fallback
candidate selection keeps the first five truthy concept ids). -/
structure SearchCandidate where
  concept_id : Option Int := none

/-- Python `ConceptSet` (the fields the worker reads). -/
structure ConceptSetSpec where
  name : String
  intent : String := ""
  domain : String := ""
  vocabulary : List String := []
  queries : List String := []
  include_descendants : Bool := true
  standard_only : Bool := true

/-- The per-concept-set result dict built by `_process_single_concept_set`
(and by the orchestrator's failure fallback). The no-search-results and
worker-failure paths build it without a `resolution_outcome` key, hence the
`Option`. -/
structure SetResult where
  name : String
  intent : String
  domain : String
  included_concepts : List IncludedConcept := []
  excluded_concepts : List IncludedConcept := []
  resolution_outcome : Option ResolutionOutcome := none

/-- The external collaborators of one worker run, as response functions:
`timeoutAt n` is the result of the elapsed-time check at loop iteration `n`;
`fetch` is the concept-details gateway (fetch failure degrades to the
all-`none` empty dict, as in the source's exception handlers); `decide n ids`
is the batch oracle at iteration `n` (`none` models an LLM failure, which the
source replaces with one negative fallback decision per id); `search q` is
the raw candidate list of one ATHENA query (failure or no hits degrade to
`[]`, the only two cases the source distinguishes); `select` is the LLM
candidate aggregation (`none` models an LLM failure). -/
structure Env where
  timeoutAt : Nat → Bool
  fetch : Int → ConceptDetails
  decide : Nat → List Int → Option (List ConceptDecision)
  search : String → List SearchCandidate := fun _ => []
  select : Option (List Int) := none
  select_message : Option String := none

/-- The engine knobs of one run: the `QueueState` configuration snapshot plus
the module-level `MAX_ACCEPTED_PER_SET`. -/
structure EngineConfig where
  max_depth : Nat := 2
  max_visits : Nat := 50
  batch_size : Nat := 3
  max_accepted : Nat := 3

/-- The fallback decision synthesized per batch id when the LLM batch
analysis fails. -/
def fallback_decision (cid : Int) : ConceptDecision :=
  { concept_id := cid, is_standard := false, is_correct_for_term := false
    suggested_new_candidates := []
    relationship_hint := ""
    reasoning := "Fallback decision due to LLM error" }

/-- The concepts list built for one dispatched batch (details per id from the
gateway; the relationships part never reaches engine state). -/
def batch_concepts (env : Env) (ids : List Int) : List FetchedConcept :=
  ids.map (fun cid => { concept_id := cid, details := env.fetch cid })

/-- The decisions consumed by the state update: the oracle's batch output,
or (on oracle failure) one conservative negative decision per dispatched id. -/
def oracle_decisions (env : Env) (iterNum : Nat) (ids : List Int) :
    List ConceptDecision :=
  match env.decide iterNum ids with
  | some ds => ds
  | none => ids.map fallback_decision

/-- The acceptance block inside `if short_circuit:` of the main loop: look
the wrapper of the reported id up in the batch, build the included-concept
entry, and append it to `accepted_concepts` unless the id is already
accepted. -/
def sc_accept (qs : QueueState) (concepts : List FetchedConcept)
    (sc : SCResult) : QueueState :=
  match sc.concept_id with
  | none => qs
  | some sc_id =>
    match concepts.find? (fun c => decide (c.concept_id = sc_id)) with
    | none => qs
    | some matched =>
      match included_from_details (some sc_id) matched.details with
      | none => qs
      | some inc =>
        if qs.accepted_concepts.all
            (fun x => decide (x.concept_id ≠ sc_id)) then
          { qs with accepted_concepts := qs.accepted_concepts ++ [inc] }
        else qs

/-- The short-circuit block of the main loop: on a qualifying candidate run
the acceptance block, then halt with `stop_reason = "enough_matches"` when
the accepted count has reached `MAX_ACCEPTED_PER_SET`. The returned flag is
the `break`. -/
def apply_short_circuit (qs : QueueState) (concepts : List FetchedConcept)
    (search_term : String) (max_accepted : Nat) : QueueState × Bool :=
  match try_short_circuit_resolution concepts search_term with
  | none => (qs, false)
  | some sc =>
    let qs1 := sc_accept qs concepts sc
    if max_accepted ≤ qs1.accepted_concepts.length then
      ({ qs1 with stop_reason := some "enough_matches" }, true)
    else (qs1, false)

/-- The post-batch stagnation block of the main loop. The returned flag is
the `break`. -/
def stagnation_check (qs : QueueState) : QueueState × Bool :=
  match qs.pending with
  | [] => (qs, false)
  | item :: _ =>
    let head_id := item.concept_id
    if qs.last_head_id = some head_id then
      let n := qs.stagnation_count + 1
      if 3 ≤ n then
        ({ qs with stagnation_count := n, stop_reason := some "stagnation" }, true)
      else
        ({ qs with stagnation_count := n, last_head_id := some head_id }, false)
    else
      ({ qs with stagnation_count := 0, last_head_id := some head_id }, false)

/-- Result of one execution of the loop body: the new state, whether the body
`break`s, and two observers used only by the theorems: the ids dispatched by
`_queue_next_batch` this iteration ([] when none), and the ids that reached
`_update_queue_from_batch` (hence were counted into `visit_count`). -/
structure BodyResult where
  state : QueueState
  halted : Bool
  dispatched : List Int := []
  counted : List Int := []

/-- One execution of the body of the main `while` loop of
`_process_single_concept_set` (`iterNum` is the local `iteration` counter
after its increment): elapsed-time check, batch selection, fetch,
short-circuit check, oracle judgment (with failure fallback), queue update,
enough-matches check, stagnation check. -/
def run_body (env : Env) (search_term : String) (max_accepted : Nat)
    (qs : QueueState) (iterNum : Nat) : BodyResult :=
  if env.timeoutAt iterNum then
    { state := { qs with stop_reason := some "timeout" }, halted := true }
  else
    let qnb := queue_next_batch qs
    if !qnb.1.has_batch then
      { state := qnb.2, halted := true }
    else
      let ids := qnb.1.ids
      let depths := qnb.1.depths
      let concepts := batch_concepts env ids
      let sc := apply_short_circuit qnb.2 concepts search_term max_accepted
      if sc.2 then
        { state := sc.1, halted := true, dispatched := ids }
      else
        let decisions := oracle_decisions env iterNum ids
        let qs3 := update_queue_from_batch sc.1 ids depths concepts decisions
        if max_accepted ≤ qs3.accepted_concepts.length then
          { state := { qs3 with stop_reason := some "enough_matches" }
            halted := true, dispatched := ids, counted := ids }
        else
          let st := stagnation_check qs3
          { state := st.1, halted := st.2, dispatched := ids, counted := ids }

/-- The guard of the main `while` loop:
`not queue_state.resolved and queue_state.visit_count < max_visits and
queue_state.pending`. -/
def loop_guard (qs : QueueState) : Bool :=
  !qs.resolved && qs.visit_count < qs.max_visits && !qs.pending.isEmpty

/-- Result of running the loop: final state, the dispatched batches in
order, the batches that reached `_update_queue_from_batch`, and whether the
loop reached its exit (as opposed to running out of fuel; the termination
theorem shows sufficient fuel always completes). -/
structure LoopResult where
  state : QueueState
  batches : List (List Int) := []
  counted : List (List Int) := []
  completed : Bool

/-- The main `while` loop of `_process_single_concept_set`, with explicit
fuel; `iter` is the local `iteration` counter so far. -/
def exploration_loop (env : Env) (search_term : String) (max_accepted : Nat) :
    Nat → QueueState → Nat → LoopResult
  | 0, qs, _ => { state := qs, completed := false }
  | fuel + 1, qs, iter =>
    if loop_guard qs then
      let r := run_body env search_term max_accepted qs (iter + 1)
      let db := if r.dispatched.isEmpty then ([] : List (List Int)) else [r.dispatched]
      let cb := if r.counted.isEmpty then ([] : List (List Int)) else [r.counted]
      if r.halted then
        { state := r.state, batches := db, counted := cb, completed := true }
      else
        let rest := exploration_loop env search_term max_accepted fuel r.state (iter + 1)
        { state := rest.state, batches := db ++ rest.batches
          counted := cb ++ rest.counted, completed := rest.completed }
    else
      { state := qs, completed := true }

/-- The initial `QueueState` built by `_process_single_concept_set` from the
selected candidate ids. -/
def init_queue_state (candidate_ids : List Int) (msg : Option String)
    (cfg : EngineConfig) : QueueState :=
  { pending := candidate_ids.map (fun cid => { concept_id := cid, depth := 0 })
    visited := []
    depth_map := candidate_ids.map (fun cid => (cid, 0))
    max_depth := cfg.max_depth
    max_visits := cfg.max_visits
    batch_size := cfg.batch_size
    initial_candidates := candidate_ids
    initial_message := msg }

/-- Fuel that the termination theorem proves sufficient for any run of the
loop from an initial state. -/
def sufficient_fuel (cfg : EngineConfig) : Nat :=
  Nat.max cfg.max_visits 1 + 1

/-- The fallback candidate selection used when the aggregator LLM fails:
`[c.get("concept_id") for c in all_search_results[:5] if c.get("concept_id")]`
(a falsy — absent or zero — id is dropped). -/
def fallback_selection (all_search_results : List SearchCandidate) : List Int :=
  (all_search_results.take 5).filterMap
    (fun c => match c.concept_id with
      | some v => if v = 0 then none else some v
      | none => none)

/-- The search-aggregation phase of `_process_single_concept_set`: the
candidates of the first `max_queries` queries, in order (a failed or empty
search contributes nothing). -/
def gather_search_results (env : Env) (cs : ConceptSetSpec)
    (max_queries : Nat) : List SearchCandidate :=
  (cs.queries.take max_queries).foldl (fun acc q => acc ++ env.search q) []

/-- Python `_process_single_concept_set(concept_set, max_visits, max_depth,
batch_size, max_queries)`: search, candidate selection, queue-based
exploration, finalization. With no search results at all it returns the
degenerate result without a `resolution_outcome` key. -/
def process_single_concept_set (env : Env) (cs : ConceptSetSpec)
    (cfg : EngineConfig) (max_queries : Nat) : SetResult :=
  let all_search_results := gather_search_results env cs max_queries
  if all_search_results.isEmpty then
    { name := cs.name, intent := cs.intent, domain := cs.domain
      included_concepts := [], excluded_concepts := []
      resolution_outcome := none }
  else
    let candidate_ids := match env.select with
      | some ids => ids
      | none => fallback_selection all_search_results
    let qs0 := init_queue_state candidate_ids env.select_message cfg
    let final := exploration_loop env cs.name cfg.max_accepted
      (sufficient_fuel cfg) qs0 0
    let outcome := finalize_resolution final.state
    let included := if outcome.status = "resolved" &&
        !outcome.accepted_concepts.isEmpty then outcome.accepted_concepts else []
    { name := cs.name, intent := cs.intent, domain := cs.domain
      included_concepts := included, excluded_concepts := []
      resolution_outcome := some outcome }

/-- The empty fallback result the orchestrator substitutes for a failed
worker. -/
def empty_set_result (cs : ConceptSetSpec) : SetResult :=
  { name := cs.name, intent := cs.intent, domain := cs.domain
    included_concepts := [], excluded_concepts := []
    resolution_outcome := none }

/-- The aggregation loop of `run_intelligent_concept_discovery`:
`for future in as_completed(futures): ... final_concept_sets.append(...)`.
`events` is the worker completion sequence — `(i, true)` means the worker of
the `i`-th submitted concept set returned its result, `(i, false)` means it
raised and the orchestrator appended the empty fallback. Results are
appended in completion order. -/
def final_concept_sets (env : Env) (cfg : EngineConfig) (max_queries : Nat)
    (specs : List ConceptSetSpec) (events : List (Nat × Bool)) : List SetResult :=
  events.foldl
    (fun acc e =>
      match specs[e.1]? with
      | some cs =>
        acc ++ [if e.2 then process_single_concept_set env cs cfg max_queries
                else empty_set_result cs]
      | none => acc)
    []

/-- Depth containment: every pending item's depth is within the state's
`max_depth`. -/
def pending_depth_inv (qs : QueueState) : Prop :=
  ∀ item ∈ qs.pending, item.depth ≤ qs.max_depth

/-- The head of `pending` (if any) is what `last_head_id` records — or
`last_head_id` is still unset. This is the invariant that the engine's
post-batch bookkeeping maintains. -/
def head_ok (qs : QueueState) : Prop :=
  ∀ it, qs.pending.head? = some it →
    qs.last_head_id = none ∨ qs.last_head_id = some it.concept_id

/-- Invariant of all states the engine reaches from an initial state: the
stagnation counter is zero and `last_head_id` matches the queue head. -/
def StagInv (qs : QueueState) : Prop :=
  qs.stagnation_count = 0 ∧ head_ok qs

/-- All states reachable by the loop body from `s0` (over-approximates one
run: any iteration numbers, continuing past halts allowed). -/
inductive EngineReach (env : Env) (term : String) (ma : Nat)
    (s0 : QueueState) : QueueState → Prop
  | init : EngineReach env term ma s0 s0
  | step (s : QueueState) (it : Nat) (h : EngineReach env term ma s0 s) :
      EngineReach env term ma s0 (run_body env term ma s it).state

/-- A negative, suggestion-free oracle decision (used by the concrete
scenario environments below for rejected candidates). -/
def reject_decision (cid : Int) : ConceptDecision :=
  { concept_id := cid, is_standard := false, is_correct_for_term := false
    suggested_new_candidates := [], reasoning := "rejected" }

/-- Engine configuration of the source defaults
(`MAX_DEPTH_DEFAULT = 2`, `MAX_VISITS_DEFAULT = 50`,
`BATCH_SIZE_DEFAULT = 3`, `MAX_ACCEPTED_PER_SET = 3`). -/
def default_config : EngineConfig :=
  { max_depth := 2, max_visits := 50, batch_size := 3, max_accepted := 3 }

/-- Scenario B of the spec: one seed (500), `maxDepth = 0`; the oracle
rejects the seed and suggests child 600. -/
def envB : Env :=
  { timeoutAt := fun _ => false
    fetch := fun _ => {}
    decide := fun _ ids => some (ids.map (fun cid =>
      { concept_id := cid, is_standard := false, is_correct_for_term := false
        suggested_new_candidates := [600], reasoning := "rejected" }))
    search := fun _ => [{ concept_id := some 500 }]
    select := some [500] }

/-- Configuration of scenario B (`maxDepth = 0`). -/
def cfgB : EngineConfig :=
  { max_depth := 0, max_visits := 10, batch_size := 2, max_accepted := 3 }

/-- The full loop run of scenario B. -/
def scenarioB_run : LoopResult :=
  exploration_loop envB "seed concept" cfgB.max_accepted (sufficient_fuel cfgB)
    (init_queue_state [500] none cfgB) 0

/-- The outcome finalized from scenario B's final state. -/
def scenarioB_outcome : ResolutionOutcome :=
  finalize_resolution scenarioB_run.state

/-- Concept 700: a standard SNOMED Clinical Finding whose name is exactly
"Atrial fibrillation" (scenario C of the spec). -/
def details700 : ConceptDetails :=
  { id := some 700, conceptId := some 700
    name := some "Atrial fibrillation", conceptName := some "Atrial fibrillation"
    standardConcept := some "Standard", domainId := some "Condition"
    vocabularyId := some "SNOMED", conceptClassId := some "Clinical Finding"
    conceptCode := some "49436004", synonyms := some [] }

/-- Environment in which concept 700 is fetched with its real details and
the oracle rejects everything. -/
def env700 : Env :=
  { timeoutAt := fun _ => false
    fetch := fun cid => if cid = 700 then details700 else {}
    decide := fun _ ids => some (ids.map reject_decision)
    search := fun _ => [{ concept_id := some 700 }]
    select := some [700] }

/-- Configuration with `MAX_ACCEPTED_PER_SET = 1` (the source reads this
knob from the environment), so the first short-circuit acceptance reaches
the threshold. -/
def cfg700 : EngineConfig :=
  { max_depth := 2, max_visits := 50, batch_size := 3, max_accepted := 1 }

/-- Run of the engine on seed 700 with search term "atrial fibrillation". -/
def scenario700_run : LoopResult :=
  exploration_loop env700 "atrial fibrillation" cfg700.max_accepted
    (sufficient_fuel cfg700) (init_queue_state [700] none cfg700) 0

/-- Environment for the duplicate-seed run: details empty, oracle rejects
everything with no suggestions. -/
def envDup : Env :=
  { timeoutAt := fun _ => false
    fetch := fun _ => {}
    decide := fun _ ids => some (ids.map reject_decision)
    search := fun _ => [{ concept_id := some 100 }]
    select := some [100, 100] }

/-- Run of the engine on the duplicate seed list `[100, 100]` (the source
seeds `pending` directly from the selected candidate ids, without
deduplication). -/
def scenarioDup_run : LoopResult :=
  exploration_loop envDup "dup term" default_config.max_accepted
    (sufficient_fuel default_config)
    (init_queue_state [100, 100] none default_config) 0

/-- Environment of the spec's stagnation scenario: the oracle always rejects
and re-suggests the already-rejected candidate 10. -/
def envStag : Env :=
  { timeoutAt := fun _ => false
    fetch := fun _ => {}
    decide := fun _ ids => some (ids.map (fun cid =>
      { concept_id := cid, is_standard := false, is_correct_for_term := false
        suggested_new_candidates := [10], reasoning := "re-suggest 10" })) }

/-- Configuration of the stagnation scenario (`batchSize = 1`). -/
def cfgStag : EngineConfig :=
  { max_depth := 2, max_visits := 50, batch_size := 1, max_accepted := 3 }

/-- Run of the engine on seeds `[10, 20]` against the re-suggesting
oracle. -/
def scenarioStag_run : LoopResult :=
  exploration_loop envStag "stag term" cfgStag.max_accepted
    (sufficient_fuel cfgStag) (init_queue_state [10, 20] none cfgStag) 0

/-- First orchestrated concept set. -/
def csA : ConceptSetSpec :=
  { name := "hypertension", intent := "patients with hypertension"
    domain := "Condition", queries := ["hypertension"] }

/-- Second orchestrated concept set. -/
def csB : ConceptSetSpec :=
  { name := "diabetes", intent := "patients with diabetes"
    domain := "Condition", queries := ["diabetes"] }

/-- Environment in which every search yields one candidate (concept 11),
seeded and rejected by the oracle. -/
def envSearch : Env :=
  { timeoutAt := fun _ => false
    fetch := fun _ => {}
    decide := fun _ ids => some (ids.map reject_decision)
    search := fun _ => [{ concept_id := some 11 }]
    select := some [11] }

/-- Environment in which every search yields no candidates at all. -/
def envNoHits : Env :=
  { timeoutAt := fun _ => false
    fetch := fun _ => {}
    decide := fun _ ids => some (ids.map reject_decision)
    search := fun _ => []
    select := none }

/-- Generic invariant preservation for `List.foldl`. -/
lemma foldl_inv {α β : Type} (P : β → Prop) (f : β → α → β) :
    ∀ (l : List α) (init : β), P init → (∀ b a, P b → P (f b a)) →
    P (l.foldl f init) := by
  intro l
  induction l with
  | nil => intro init h0 _; exact h0
  | cons a t ih => intro init h0 hstep; exact ih _ (hstep _ _ h0) hstep

/-- Fields of `QueueState` that `mark_visited` leaves unchanged, plus
monotonicity of `visited`. -/
lemma mark_visited_preserves (qs : QueueState) (ids : List Int) :
    (mark_visited qs ids).pending = qs.pending ∧
    (mark_visited qs ids).history = qs.history ∧
    (mark_visited qs ids).stop_reason = qs.stop_reason ∧
    (mark_visited qs ids).accepted_concepts = qs.accepted_concepts ∧
    (mark_visited qs ids).last_head_id = qs.last_head_id ∧
    (mark_visited qs ids).stagnation_count = qs.stagnation_count ∧
    (mark_visited qs ids).max_visits = qs.max_visits ∧
    (mark_visited qs ids).max_depth = qs.max_depth ∧
    (mark_visited qs ids).batch_size = qs.batch_size ∧
    (mark_visited qs ids).resolved = qs.resolved ∧
    (mark_visited qs ids).best_fallback = qs.best_fallback ∧
    (mark_visited qs ids).iteration = qs.iteration ∧
    (∀ x ∈ qs.visited, x ∈ (mark_visited qs ids).visited) := by
  unfold mark_visited
  refine foldl_inv (fun s =>
    s.pending = qs.pending ∧ s.history = qs.history ∧
    s.stop_reason = qs.stop_reason ∧
    s.accepted_concepts = qs.accepted_concepts ∧
    s.last_head_id = qs.last_head_id ∧
    s.stagnation_count = qs.stagnation_count ∧
    s.max_visits = qs.max_visits ∧ s.max_depth = qs.max_depth ∧
    s.batch_size = qs.batch_size ∧ s.resolved = qs.resolved ∧
    s.best_fallback = qs.best_fallback ∧ s.iteration = qs.iteration ∧
    (∀ x ∈ qs.visited, x ∈ s.visited)) _ ids qs ?_ ?_
  · exact ⟨rfl, rfl, rfl, rfl, rfl, rfl, rfl, rfl, rfl, rfl, rfl, rfl,
      fun _ hx => hx⟩
  · rintro b a ⟨h1, h2, h3, h4, h5, h6, h7, h8, h9, h10, h11, h12, h13⟩
    refine ⟨h1, h2, h3, h4, h5, h6, h7, h8, h9, h10, h11, h12, ?_⟩
    intro x hx
    by_cases hmem : a ∈ b.visited
    · simpa [hmem] using h13 x hx
    · simp only [hmem, if_neg, ite_false]
      exact List.mem_append_left _ (h13 x hx)

/-- `visit_count` after `mark_visited` grows by the batch length, counted
with multiplicity. -/
lemma mark_visited_visit_count :
    ∀ (ids : List Int) (qs : QueueState),
    (mark_visited qs ids).visit_count = qs.visit_count + ids.length := by
  intro ids
  induction ids with
  | nil => intro qs; rfl
  | cons a t ih =>
    intro qs
    have : mark_visited qs (a :: t) =
        mark_visited ({ qs with
          visited := if a ∈ qs.visited then qs.visited else qs.visited ++ [a]
          visit_count := qs.visit_count + 1 }) t := by
      simp [mark_visited]
    rw [this, ih]
    simp
    omega

/-- Every dispatched id ends up in `visited` after `mark_visited`. -/
lemma mark_visited_mem :
    ∀ (ids : List Int) (qs : QueueState) (x : Int), x ∈ ids →
    x ∈ (mark_visited qs ids).visited := by
  intro ids
  induction ids with
  | nil => intro qs x hx; cases hx
  | cons a t ih =>
    intro qs x hx
    have hstep : mark_visited qs (a :: t) =
        mark_visited ({ qs with
          visited := if a ∈ qs.visited then qs.visited else qs.visited ++ [a]
          visit_count := qs.visit_count + 1 }) t := by
      simp [mark_visited]
    rcases List.mem_cons.mp hx with h | h
    · subst h
      rw [hstep]
      have hmem : x ∈ (if x ∈ qs.visited then qs.visited else qs.visited ++ [x]) := by
        by_cases hv : x ∈ qs.visited
        · simp [hv]
        · simp [hv]
      exact (mark_visited_preserves _ t).2.2.2.2.2.2.2.2.2.2.2.2 x hmem
    · rw [hstep]; exact ih _ x h

/-- `collect_accepted` only appends to `accepted_concepts` and leaves every
other field unchanged. -/
lemma collect_accepted_preserves (qs : QueueState)
    (concepts : List FetchedConcept) (decisions : List ConceptDecision) :
    (collect_accepted qs concepts decisions).pending = qs.pending ∧
    (collect_accepted qs concepts decisions).visited = qs.visited ∧
    (collect_accepted qs concepts decisions).visit_count = qs.visit_count ∧
    (collect_accepted qs concepts decisions).history = qs.history ∧
    (collect_accepted qs concepts decisions).stop_reason = qs.stop_reason ∧
    (collect_accepted qs concepts decisions).last_head_id = qs.last_head_id ∧
    (collect_accepted qs concepts decisions).stagnation_count = qs.stagnation_count ∧
    (collect_accepted qs concepts decisions).max_visits = qs.max_visits ∧
    (collect_accepted qs concepts decisions).max_depth = qs.max_depth ∧
    (collect_accepted qs concepts decisions).batch_size = qs.batch_size ∧
    (collect_accepted qs concepts decisions).resolved = qs.resolved ∧
    (collect_accepted qs concepts decisions).best_fallback = qs.best_fallback ∧
    (collect_accepted qs concepts decisions).iteration = qs.iteration ∧
    (∀ x ∈ qs.accepted_concepts,
      x ∈ (collect_accepted qs concepts decisions).accepted_concepts) := by
  unfold collect_accepted
  refine foldl_inv (fun s =>
    s.pending = qs.pending ∧ s.visited = qs.visited ∧
    s.visit_count = qs.visit_count ∧ s.history = qs.history ∧
    s.stop_reason = qs.stop_reason ∧ s.last_head_id = qs.last_head_id ∧
    s.stagnation_count = qs.stagnation_count ∧ s.max_visits = qs.max_visits ∧
    s.max_depth = qs.max_depth ∧ s.batch_size = qs.batch_size ∧
    s.resolved = qs.resolved ∧ s.best_fallback = qs.best_fallback ∧
    s.iteration = qs.iteration ∧
    (∀ x ∈ qs.accepted_concepts, x ∈ s.accepted_concepts)) _ _ qs ?_ ?_
  · exact ⟨rfl, rfl, rfl, rfl, rfl, rfl, rfl, rfl, rfl, rfl, rfl, rfl, rfl,
      fun _ hx => hx⟩
  · rintro b a ⟨h1, h2, h3, h4, h5, h6, h7, h8, h9, h10, h11, h12, h13, h14⟩
    by_cases hd : a.2.is_standard && a.2.is_correct_for_term
    · simp only [hd, if_true, ite_true]
      cases hinc : included_from_details (some a.2.concept_id)
          (match concepts[a.1]? with
            | some c => c.details
            | none => {}) with
      | none => exact ⟨h1, h2, h3, h4, h5, h6, h7, h8, h9, h10, h11, h12, h13, h14⟩
      | some inc =>
        by_cases hdup : b.accepted_concepts.all
            (fun x => decide (x.concept_id ≠ a.2.concept_id))
        · simp only [hdup, if_true, ite_true]
          refine ⟨h1, h2, h3, h4, h5, h6, h7, h8, h9, h10, h11, h12, h13, ?_⟩
          intro x hx
          exact List.mem_append_left _ (h14 x hx)
        · simp only [hdup, if_false, ite_false]
          exact ⟨h1, h2, h3, h4, h5, h6, h7, h8, h9, h10, h11, h12, h13, h14⟩
    · simp only [hd, if_false, ite_false]
      exact ⟨h1, h2, h3, h4, h5, h6, h7, h8, h9, h10, h11, h12, h13, h14⟩

/-- Invariant used for the `add_suggested` fold: all fields except
`pending`/`depth_map` agree with the pre-state, and every pending item is
either an original one or a fresh in-bounds child. -/
def AddSuggestedInv (qs s : QueueState) : Prop :=
  s.visited = qs.visited ∧ s.visit_count = qs.visit_count ∧
  s.history = qs.history ∧ s.stop_reason = qs.stop_reason ∧
  s.last_head_id = qs.last_head_id ∧
  s.stagnation_count = qs.stagnation_count ∧ s.max_visits = qs.max_visits ∧
  s.max_depth = qs.max_depth ∧ s.batch_size = qs.batch_size ∧
  s.resolved = qs.resolved ∧ s.best_fallback = qs.best_fallback ∧
  s.iteration = qs.iteration ∧ s.accepted_concepts = qs.accepted_concepts ∧
  (∀ item ∈ s.pending, item ∈ qs.pending ∨
    (item.concept_id ∉ qs.visited ∧ item.depth ≤ qs.max_depth))

/-- `add_suggested` only appends freshly discovered children (ids not in
`visited`, child depth within `max_depth`) to `pending` and `depth_map`,
leaving every other field unchanged; items already in `pending` remain. -/
lemma add_suggested_preserves (qs : QueueState) (depths : List Nat)
    (decisions : List ConceptDecision) :
    AddSuggestedInv qs (add_suggested qs depths decisions) := by
  unfold add_suggested
  refine foldl_inv (AddSuggestedInv qs) _ _ qs ?_ ?_
  · exact ⟨rfl, rfl, rfl, rfl, rfl, rfl, rfl, rfl, rfl, rfl, rfl, rfl, rfl,
      fun _ hx => Or.inl hx⟩
  · rintro b a hb
    refine foldl_inv (AddSuggestedInv qs) _ a.2.suggested_new_candidates b hb ?_
    rintro s2 sid ⟨g1, g2, g3, g4, g5, g6, g7, g8, g9, g10, g11, g12, g13, g14⟩
    by_cases hfresh : sid ∉ s2.visited &&
        s2.pending.all (fun item => decide (item.concept_id ≠ sid))
    · simp only [hfresh, if_true, ite_true]
      by_cases hdepth : (depths[a.1]?).getD 0 + 1 ≤ s2.max_depth
      · simp only [hdepth, if_true, ite_true]
        refine ⟨g1, g2, g3, g4, g5, g6, g7, g8, g9, g10, g11, g12, g13, ?_⟩
        intro item hitem
        rcases List.mem_append.mp hitem with h | h
        · exact g14 item h
        · have heq : item =
              { concept_id := sid, depth := (depths[a.1]?).getD 0 + 1 } := by
            simpa using h
          subst heq
          right
          constructor
          · have hv := (Bool.and_eq_true _ _).mp hfresh
            have hnv : sid ∉ s2.visited := by simpa using hv.1
            rw [g1] at hnv
            exact hnv
          · simpa [g8] using hdepth
      · simp only [hdepth, if_false, ite_false]
        exact ⟨g1, g2, g3, g4, g5, g6, g7, g8, g9, g10, g11, g12, g13, g14⟩
    · simp only [hfresh, if_false, ite_false]
      exact ⟨g1, g2, g3, g4, g5, g6, g7, g8, g9, g10, g11, g12, g13, g14⟩

/-- Aggregate facts about `_update_queue_from_batch`: `visit_count` grows by
the batch length (with multiplicity), all dispatched ids are in `visited`
afterwards, no pending item carries a dispatched id afterwards, previously
accepted concepts survive, and all other fields are unchanged. -/
lemma update_queue_facts (qs : QueueState) (ids : List Int)
    (depths : List Nat) (concepts : List FetchedConcept)
    (decisions : List ConceptDecision) :
    (update_queue_from_batch qs ids depths concepts decisions).visit_count =
      qs.visit_count + ids.length ∧
    (update_queue_from_batch qs ids depths concepts decisions).history = qs.history ∧
    (update_queue_from_batch qs ids depths concepts decisions).stop_reason =
      qs.stop_reason ∧
    (update_queue_from_batch qs ids depths concepts decisions).last_head_id =
      qs.last_head_id ∧
    (update_queue_from_batch qs ids depths concepts decisions).stagnation_count =
      qs.stagnation_count ∧
    (update_queue_from_batch qs ids depths concepts decisions).max_visits =
      qs.max_visits ∧
    (update_queue_from_batch qs ids depths concepts decisions).max_depth =
      qs.max_depth ∧
    (update_queue_from_batch qs ids depths concepts decisions).batch_size =
      qs.batch_size ∧
    (update_queue_from_batch qs ids depths concepts decisions).resolved =
      qs.resolved ∧
    (update_queue_from_batch qs ids depths concepts decisions).best_fallback =
      qs.best_fallback ∧
    (∀ x ∈ ids,
      x ∈ (update_queue_from_batch qs ids depths concepts decisions).visited) ∧
    (∀ item ∈ (update_queue_from_batch qs ids depths concepts decisions).pending,
      item.concept_id ∉ ids) ∧
    (∀ x ∈ qs.accepted_concepts,
      x ∈ (update_queue_from_batch qs ids depths concepts decisions).accepted_concepts) := by
  unfold update_queue_from_batch
  have hmv := mark_visited_preserves qs ids
  have hmvc := mark_visited_visit_count ids qs
  set qs1 := mark_visited qs ids with hqs1
  set qs2 : QueueState :=
    { qs1 with pending := (qs1.pending.filter
        (fun item => decide (item.concept_id ∉ ids))) } with hqs2
  have hca := collect_accepted_preserves qs2 concepts decisions
  set qs3 := collect_accepted qs2 concepts decisions with hqs3
  have has := add_suggested_preserves qs3 depths decisions
  obtain ⟨a1, a2, a3, a4, a5, a6, a7, a8, a9, a10, a11, a12, a13, a14⟩ := has
  obtain ⟨c1, c2, c3, c4, c5, c6, c7, c8, c9, c10, c11, c12, c13, c14⟩ := hca
  obtain ⟨m1, m2, m3, m4, m5, m6, m7, m8, m9, m10, m11, m12, m13⟩ := hmv
  have hv3 : qs3.visited = qs1.visited := by
    rw [c2]
  have hvc3 : qs3.visit_count = qs1.visit_count := by
    rw [c3]
  refine ⟨?_, ?_, ?_, ?_, ?_, ?_, ?_, ?_, ?_, ?_, ?_, ?_, ?_⟩
  · rw [a2, hvc3, hmvc]
  · rw [a3, c4, m2]
  · rw [a4, c5, m3]
  · rw [a5, c6, m5]
  · rw [a6, c7, m6]
  · rw [a7, c8, m7]
  · rw [a8, c9, m8]
  · rw [a9, c10, m9]
  · rw [a10, c11, m10]
  · rw [a11, c12, m11]
  · intro x hx
    rw [a1, hv3]
    exact mark_visited_mem ids qs x hx
  · intro item hitem
    rcases a14 item hitem with h | h
    · have hmem := h
      rw [c1] at hmem
      have := List.mem_filter.mp hmem
      simpa using this.2
    · intro hin
      have : item.concept_id ∈ qs3.visited := by
        rw [hv3]
        exact mark_visited_mem ids qs _ hin
      exact h.1 this
  · intro x hx
    rw [a13]
    refine c14 x ?_
    have hacc : qs2.accepted_concepts = qs.accepted_concepts := m4
    rw [hacc]
    exact hx

/-- Depth containment is preserved by `_update_queue_from_batch`. -/
lemma update_queue_depth_inv (qs : QueueState) (ids : List Int)
    (depths : List Nat) (concepts : List FetchedConcept)
    (decisions : List ConceptDecision)
    (hinv : ∀ item ∈ qs.pending, item.depth ≤ qs.max_depth) :
    ∀ item ∈ (update_queue_from_batch qs ids depths concepts decisions).pending,
      item.depth ≤
        (update_queue_from_batch qs ids depths concepts decisions).max_depth := by
  intro item hitem
  have hmd := (update_queue_facts qs ids depths concepts decisions).2.2.2.2.2.2.1
  rw [hmd]
  unfold update_queue_from_batch at hitem
  have hmv := mark_visited_preserves qs ids
  set qs1 := mark_visited qs ids with hqs1
  set qs2 : QueueState :=
    { qs1 with pending := (qs1.pending.filter
        (fun item => decide (item.concept_id ∉ ids))) } with hqs2
  have hca := collect_accepted_preserves qs2 concepts decisions
  set qs3 := collect_accepted qs2 concepts decisions with hqs3
  have has := add_suggested_preserves qs3 depths decisions
  rcases has.2.2.2.2.2.2.2.2.2.2.2.2.2 item hitem with h | h
  · have hmem := h
    rw [hca.1] at hmem
    have hmem2 := (List.mem_filter.mp hmem).1
    rw [hmv.1] at hmem2
    exact hinv item hmem2
  · have hmd3 : qs3.max_depth = qs.max_depth := by
      rw [hca.2.2.2.2.2.2.2.2.1, hmv.2.2.2.2.2.2.2.1]
    rw [hmd3] at h
    exact h.2

/-- Unfolding equation for a scan step that takes the item. -/
lemma scan_step_take (eff md : Nat) (acc : List Int × List Nat × List QueueItem)
    (item : QueueItem)
    (hc : (decide (acc.1.length < eff) && decide (item.depth ≤ md)) = true) :
    scan_step eff md acc item =
      (acc.1 ++ [item.concept_id], acc.2.1 ++ [item.depth], acc.2.2) := by
  unfold scan_step
  simp only [hc, if_true, ite_true]

/-- Unfolding equation for a scan step that keeps the item pending. -/
lemma scan_step_keep (eff md : Nat) (acc : List Int × List Nat × List QueueItem)
    (item : QueueItem)
    (hc : (decide (acc.1.length < eff) && decide (item.depth ≤ md)) = false) :
    scan_step eff md acc item = (acc.1, acc.2.1, acc.2.2 ++ [item]) := by
  unfold scan_step
  simp only [hc, if_false, ite_false, Bool.false_eq_true]

/-- The scan loop only ever appends to the outgoing id list. -/
lemma scan_ids_front (eff md : Nat) :
    ∀ (l : List QueueItem) (acc : List Int × List Nat × List QueueItem),
    ∃ extra, (l.foldl (scan_step eff md) acc).1 = acc.1 ++ extra := by
  intro l
  induction l with
  | nil => intro acc; exact ⟨[], by simp⟩
  | cons a t ih =>
    intro acc
    rw [List.foldl_cons]
    cases hc : (decide (acc.1.length < eff) && decide (a.depth ≤ md)) with
    | true =>
      rw [scan_step_take eff md acc a hc]
      obtain ⟨extra, hex⟩ :=
        ih (acc.1 ++ [a.concept_id], acc.2.1 ++ [a.depth], acc.2.2)
      exact ⟨[a.concept_id] ++ extra, by simpa using hex⟩
    | false =>
      rw [scan_step_keep eff md acc a hc]
      exact ih (acc.1, acc.2.1, acc.2.2 ++ [a])

/-- Every item of the new pending list produced by the scan loop comes from
the accumulator or the scanned list. -/
lemma scan_np_src (eff md : Nat) :
    ∀ (l : List QueueItem) (acc : List Int × List Nat × List QueueItem)
    (item : QueueItem), item ∈ (l.foldl (scan_step eff md) acc).2.2 →
    item ∈ acc.2.2 ∨ item ∈ l := by
  intro l
  induction l with
  | nil => intro acc item h; exact Or.inl h
  | cons a t ih =>
    intro acc item h
    rw [List.foldl_cons] at h
    cases hc : (decide (acc.1.length < eff) && decide (a.depth ≤ md)) with
    | true =>
      rw [scan_step_take eff md acc a hc] at h
      rcases ih _ item h with h2 | h2
      · exact Or.inl h2
      · exact Or.inr (List.mem_cons_of_mem _ h2)
    | false =>
      rw [scan_step_keep eff md acc a hc] at h
      rcases ih _ item h with h2 | h2
      · rcases List.mem_append.mp h2 with h3 | h3
        · exact Or.inl h3
        · have : item = a := by simpa using h3
          exact Or.inr (by simp [this])
      · exact Or.inr (List.mem_cons_of_mem _ h2)

/-- With a zero batch budget the scan takes nothing. -/
lemma scan_eff_zero (md : Nat) :
    ∀ (l : List QueueItem) (acc : List Int × List Nat × List QueueItem),
    (l.foldl (scan_step 0 md) acc).1 = acc.1 := by
  intro l
  induction l with
  | nil => intro acc; rfl
  | cons a t ih =>
    intro acc
    rw [List.foldl_cons]
    rw [scan_step_keep 0 md acc a (by simp)]
    exact ih _

/-- `_queue_next_batch` leaves every state field except `pending` and
`iteration` unchanged. -/
lemma queue_next_batch_preserves (qs : QueueState) :
    (queue_next_batch qs).2.visited = qs.visited ∧
    (queue_next_batch qs).2.visit_count = qs.visit_count ∧
    (queue_next_batch qs).2.history = qs.history ∧
    (queue_next_batch qs).2.stop_reason = qs.stop_reason ∧
    (queue_next_batch qs).2.accepted_concepts = qs.accepted_concepts ∧
    (queue_next_batch qs).2.last_head_id = qs.last_head_id ∧
    (queue_next_batch qs).2.stagnation_count = qs.stagnation_count ∧
    (queue_next_batch qs).2.max_visits = qs.max_visits ∧
    (queue_next_batch qs).2.max_depth = qs.max_depth ∧
    (queue_next_batch qs).2.batch_size = qs.batch_size ∧
    (queue_next_batch qs).2.resolved = qs.resolved ∧
    (queue_next_batch qs).2.best_fallback = qs.best_fallback := by
  unfold queue_next_batch
  by_cases h1 : qs.resolved
  · simp [h1]
  · by_cases h2 : qs.max_visits ≤ qs.visit_count
    · simp [h1, h2]
    · cases hp : qs.pending with
      | nil => simp [h1, h2, hp]
      | cons first rest =>
        by_cases h3 : qs.max_depth < first.depth
        · simp [h1, h2, hp, h3]
        · simp [h1, h2, hp, h3]

/-- Reduction equation for the scan branch of `_queue_next_batch`. -/
lemma queue_next_batch_scan_eq (qs : QueueState) (first : QueueItem)
    (rest : List QueueItem) (h1 : qs.resolved = false)
    (h2 : qs.visit_count < qs.max_visits) (hp : qs.pending = first :: rest)
    (h3 : first.depth ≤ qs.max_depth) :
    queue_next_batch qs =
      ({ ids := ((first :: rest).foldl (scan_step
            (min qs.batch_size (qs.max_visits - qs.visit_count)) qs.max_depth)
            ([], [], [])).1
         depths := ((first :: rest).foldl (scan_step
            (min qs.batch_size (qs.max_visits - qs.visit_count)) qs.max_depth)
            ([], [], [])).2.1
         is_empty := ((first :: rest).foldl (scan_step
            (min qs.batch_size (qs.max_visits - qs.visit_count)) qs.max_depth)
            ([], [], [])).1.isEmpty
         has_batch := !((first :: rest).foldl (scan_step
            (min qs.batch_size (qs.max_visits - qs.visit_count)) qs.max_depth)
            ([], [], [])).1.isEmpty
         batch_count := ((first :: rest).foldl (scan_step
            (min qs.batch_size (qs.max_visits - qs.visit_count)) qs.max_depth)
            ([], [], [])).1.length
         limit_reached := false
         depth_limit_hit := false
         resolved := qs.resolved
         queue_length := ((first :: rest).foldl (scan_step
            (min qs.batch_size (qs.max_visits - qs.visit_count)) qs.max_depth)
            ([], [], [])).2.2.length
         visit_count := qs.visit_count },
       { qs with
         pending := ((first :: rest).foldl (scan_step
            (min qs.batch_size (qs.max_visits - qs.visit_count)) qs.max_depth)
            ([], [], [])).2.2
         iteration := qs.iteration + 1 }) := by
  unfold queue_next_batch
  rw [hp]
  simp [h1, Nat.not_le.mpr h2, Nat.not_lt.mpr h3]

/-- Every item still pending after `_queue_next_batch` was pending before. -/
lemma queue_next_batch_pending_src (qs : QueueState) :
    ∀ item ∈ (queue_next_batch qs).2.pending, item ∈ qs.pending := by
  by_cases h1 : qs.resolved
  · intro item hitem
    unfold queue_next_batch at hitem
    simp [h1] at hitem
    exact hitem
  · by_cases h2 : qs.max_visits ≤ qs.visit_count
    · intro item hitem
      unfold queue_next_batch at hitem
      simp [h1, h2] at hitem
      exact hitem
    · cases hp : qs.pending with
      | nil =>
        intro item hitem
        unfold queue_next_batch at hitem
        simp [h1, h2, hp] at hitem
      | cons first rest =>
        by_cases h3 : qs.max_depth < first.depth
        · intro item hitem
          unfold queue_next_batch at hitem
          simp [h1, h2, hp, h3] at hitem
          exact List.mem_cons.mpr hitem
        · intro item hitem
          rw [queue_next_batch_scan_eq qs first rest (by simpa using h1)
            (Nat.not_le.mp h2) hp (Nat.not_lt.mp h3)] at hitem
          simp only at hitem
          rcases scan_np_src _ _ (first :: rest) ([], [], []) item hitem with h | h
          · cases h
          · exact h

/-- When `_queue_next_batch` reports a batch, the ids are non-empty and
include the id of the FIFO head of the queue. -/
lemma queue_next_batch_has_batch (qs : QueueState)
    (h : (queue_next_batch qs).1.has_batch = true) :
    (queue_next_batch qs).1.ids ≠ [] ∧
    ∃ first rest, qs.pending = first :: rest ∧
      first.concept_id ∈ (queue_next_batch qs).1.ids := by
  by_cases h1 : qs.resolved
  · exfalso
    unfold queue_next_batch at h
    simp [h1] at h
  · by_cases h2 : qs.max_visits ≤ qs.visit_count
    · exfalso
      unfold queue_next_batch at h
      simp [h1, h2] at h
    · cases hp : qs.pending with
      | nil =>
        exfalso
        unfold queue_next_batch at h
        simp [h1, h2, hp] at h
      | cons first rest =>
        by_cases h3 : qs.max_depth < first.depth
        · exfalso
          unfold queue_next_batch at h
          simp [h1, h2, hp, h3] at h
        · have heq := queue_next_batch_scan_eq qs first rest (by simpa using h1)
            (Nat.not_le.mp h2) hp (Nat.not_lt.mp h3)
          rw [heq] at h ⊢
          simp only at h ⊢
          set eff := min qs.batch_size (qs.max_visits - qs.visit_count) with heff
          by_cases hz : eff = 0
          · exfalso
            rw [hz, scan_eff_zero qs.max_depth (first :: rest) ([], [], [])] at h
            simp at h
          · have hpos : 0 < eff := Nat.pos_of_ne_zero hz
            have hdep : first.depth ≤ qs.max_depth := Nat.not_lt.mp h3
            have hstep : scan_step eff qs.max_depth ([], [], []) first =
                ([first.concept_id], [first.depth], []) := by
              refine scan_step_take eff qs.max_depth ([], [], []) first ?_
              simp [hpos, hdep]
            obtain ⟨extra, hex⟩ := scan_ids_front eff qs.max_depth rest
              ([first.concept_id], [first.depth], [])
            have hids : ((first :: rest).foldl (scan_step eff qs.max_depth)
                ([], [], [])).1 = first.concept_id :: extra := by
              rw [List.foldl_cons, hstep, hex]
              simp
            rw [hids]
            exact ⟨by simp, first, rest, rfl, by simp⟩

/-- Under depth containment of `pending`, the `depth_limit_hit` branch of
`_queue_next_batch` is never taken. -/
lemma queue_next_batch_no_depth_hit (qs : QueueState)
    (hinv : ∀ item ∈ qs.pending, item.depth ≤ qs.max_depth) :
    (queue_next_batch qs).1.depth_limit_hit = false := by
  unfold queue_next_batch
  by_cases h1 : qs.resolved
  · simp [h1]
  · by_cases h2 : qs.max_visits ≤ qs.visit_count
    · simp [h1, h2]
    · cases hp : qs.pending with
      | nil => simp [h1, h2, hp]
      | cons first rest =>
        have hle : first.depth ≤ qs.max_depth := by
          refine hinv first ?_
          rw [hp]
          simp
        have h3 : ¬ qs.max_depth < first.depth := Nat.not_lt.mpr hle
        simp [h1, h2, hp, h3]

/-- The acceptance block either leaves the state unchanged or appends one
entry to `accepted_concepts`. -/
lemma sc_accept_cases (qs : QueueState) (concepts : List FetchedConcept)
    (sc : SCResult) :
    sc_accept qs concepts sc = qs ∨
    ∃ inc, sc_accept qs concepts sc =
      { qs with accepted_concepts := qs.accepted_concepts ++ [inc] } := by
  unfold sc_accept
  split
  · exact Or.inl rfl
  · split
    · exact Or.inl rfl
    · split
      · exact Or.inl rfl
      · split
        · exact Or.inr ⟨_, rfl⟩
        · exact Or.inl rfl

/-- Case characterization of the short-circuit block: either the rule found
nothing and the state passes through untouched, or the acceptance block ran
and the enough-matches threshold was tested. -/
lemma apply_short_circuit_cases (qs : QueueState)
    (concepts : List FetchedConcept) (term : String) (ma : Nat) :
    apply_short_circuit qs concepts term ma = (qs, false) ∨
    ∃ qs1 : QueueState,
      (qs1 = qs ∨ ∃ inc, qs1 =
        { qs with accepted_concepts := qs.accepted_concepts ++ [inc] }) ∧
      apply_short_circuit qs concepts term ma =
        (if ma ≤ qs1.accepted_concepts.length then
          ({ qs1 with stop_reason := some "enough_matches" }, true)
         else (qs1, false)) := by
  unfold apply_short_circuit
  split
  · exact Or.inl rfl
  · rename_i sc heq
    exact Or.inr ⟨sc_accept qs concepts sc, sc_accept_cases qs concepts sc, rfl⟩

/-- The short-circuit block only touches `accepted_concepts` and (on halt)
`stop_reason`; every other field survives, and previously accepted concepts
survive. -/
lemma apply_short_circuit_preserves (qs : QueueState)
    (concepts : List FetchedConcept) (term : String) (ma : Nat) :
    (apply_short_circuit qs concepts term ma).1.pending = qs.pending ∧
    (apply_short_circuit qs concepts term ma).1.visited = qs.visited ∧
    (apply_short_circuit qs concepts term ma).1.visit_count = qs.visit_count ∧
    (apply_short_circuit qs concepts term ma).1.history = qs.history ∧
    (apply_short_circuit qs concepts term ma).1.last_head_id = qs.last_head_id ∧
    (apply_short_circuit qs concepts term ma).1.stagnation_count =
      qs.stagnation_count ∧
    (apply_short_circuit qs concepts term ma).1.max_visits = qs.max_visits ∧
    (apply_short_circuit qs concepts term ma).1.max_depth = qs.max_depth ∧
    (apply_short_circuit qs concepts term ma).1.batch_size = qs.batch_size ∧
    (apply_short_circuit qs concepts term ma).1.resolved = qs.resolved ∧
    (apply_short_circuit qs concepts term ma).1.best_fallback = qs.best_fallback ∧
    (apply_short_circuit qs concepts term ma).1.iteration = qs.iteration ∧
    ((apply_short_circuit qs concepts term ma).2 = true →
      (apply_short_circuit qs concepts term ma).1.stop_reason =
        some "enough_matches") ∧
    ((apply_short_circuit qs concepts term ma).2 = false →
      (apply_short_circuit qs concepts term ma).1.stop_reason = qs.stop_reason) ∧
    (∀ x ∈ qs.accepted_concepts,
      x ∈ (apply_short_circuit qs concepts term ma).1.accepted_concepts) := by
  rcases apply_short_circuit_cases qs concepts term ma with h | ⟨qs1, hq, h⟩
  · rw [h]
    refine ⟨rfl, rfl, rfl, rfl, rfl, rfl, rfl, rfl, rfl, rfl, rfl, rfl,
      ?_, ?_, ?_⟩
    · intro hcon; exact Bool.noConfusion hcon
    · intro _; rfl
    · intro _ hx; exact hx
  · have hfields : qs1.pending = qs.pending ∧ qs1.visited = qs.visited ∧
        qs1.visit_count = qs.visit_count ∧ qs1.history = qs.history ∧
        qs1.last_head_id = qs.last_head_id ∧
        qs1.stagnation_count = qs.stagnation_count ∧
        qs1.max_visits = qs.max_visits ∧ qs1.max_depth = qs.max_depth ∧
        qs1.batch_size = qs.batch_size ∧ qs1.resolved = qs.resolved ∧
        qs1.best_fallback = qs.best_fallback ∧ qs1.iteration = qs.iteration ∧
        qs1.stop_reason = qs.stop_reason ∧
        (∀ x ∈ qs.accepted_concepts, x ∈ qs1.accepted_concepts) := by
      rcases hq with hq | ⟨inc, hq⟩
      · subst hq
        exact ⟨rfl, rfl, rfl, rfl, rfl, rfl, rfl, rfl, rfl, rfl, rfl, rfl, rfl,
          fun _ hx => hx⟩
      · subst hq
        exact ⟨rfl, rfl, rfl, rfl, rfl, rfl, rfl, rfl, rfl, rfl, rfl, rfl, rfl,
          fun x hx => List.mem_append_left _ hx⟩
    obtain ⟨f1, f2, f3, f4, f5, f6, f7, f8, f9, f10, f11, f12, f13, f14⟩ := hfields
    rw [h]
    by_cases hma : ma ≤ qs1.accepted_concepts.length
    · rw [if_pos hma]
      refine ⟨f1, f2, f3, f4, f5, f6, f7, f8, f9, f10, f11, f12, ?_, ?_, ?_⟩
      · intro _; rfl
      · intro hcon; exact Bool.noConfusion hcon
      · intro x hx; exact f14 x hx
    · rw [if_neg hma]
      refine ⟨f1, f2, f3, f4, f5, f6, f7, f8, f9, f10, f11, f12, ?_, ?_, ?_⟩
      · intro hcon; exact Bool.noConfusion hcon
      · intro _; exact f13
      · intro x hx; exact f14 x hx

/-- The stagnation block preserves everything except `stagnation_count`,
`last_head_id` and (on halt) `stop_reason`. -/
lemma stagnation_check_preserves (qs : QueueState) :
    (stagnation_check qs).1.pending = qs.pending ∧
    (stagnation_check qs).1.visited = qs.visited ∧
    (stagnation_check qs).1.visit_count = qs.visit_count ∧
    (stagnation_check qs).1.accepted_concepts = qs.accepted_concepts ∧
    (stagnation_check qs).1.history = qs.history ∧
    (stagnation_check qs).1.max_visits = qs.max_visits ∧
    (stagnation_check qs).1.max_depth = qs.max_depth ∧
    (stagnation_check qs).1.batch_size = qs.batch_size ∧
    (stagnation_check qs).1.resolved = qs.resolved ∧
    (stagnation_check qs).1.best_fallback = qs.best_fallback ∧
    (stagnation_check qs).1.iteration = qs.iteration ∧
    ((stagnation_check qs).2 = true →
      (stagnation_check qs).1.stop_reason = some "stagnation") ∧
    ((stagnation_check qs).2 = false →
      (stagnation_check qs).1.stop_reason = qs.stop_reason) := by
  unfold stagnation_check
  split
  · refine ⟨rfl, rfl, rfl, rfl, rfl, rfl, rfl, rfl, rfl, rfl, rfl, ?_, ?_⟩
    · intro hcon; exact Bool.noConfusion hcon
    · intro _; rfl
  · rename_i item rest hp
    by_cases heq : qs.last_head_id = some item.concept_id
    · rw [if_pos heq]
      by_cases h3 : 3 ≤ qs.stagnation_count + 1
      · rw [if_pos h3]
        refine ⟨rfl, rfl, rfl, rfl, rfl, rfl, rfl, rfl, rfl, rfl, rfl, ?_, ?_⟩
        · intro _; rfl
        · intro hcon; exact Bool.noConfusion hcon
      · rw [if_neg h3]
        refine ⟨rfl, rfl, rfl, rfl, rfl, rfl, rfl, rfl, rfl, rfl, rfl, ?_, ?_⟩
        · intro hcon; exact Bool.noConfusion hcon
        · intro _; rfl
    · rw [if_neg heq]
      refine ⟨rfl, rfl, rfl, rfl, rfl, rfl, rfl, rfl, rfl, rfl, rfl, ?_, ?_⟩
      · intro hcon; exact Bool.noConfusion hcon
      · intro _; rfl

/-- When the post-batch head differs from `last_head_id` (and the stagnation
counter is zero), the stagnation block does not halt, resets the counter, and
records the new head. -/
lemma stagnation_check_fresh_head (qs : QueueState)
    (hcount : qs.stagnation_count = 0)
    (hmis : ∀ it, qs.pending.head? = some it →
      qs.last_head_id ≠ some it.concept_id) :
    (stagnation_check qs).2 = false ∧
    (stagnation_check qs).1.stagnation_count = 0 ∧
    (stagnation_check qs).1.stop_reason = qs.stop_reason ∧
    (∀ it, (stagnation_check qs).1.pending.head? = some it →
      (stagnation_check qs).1.last_head_id = none ∨
      (stagnation_check qs).1.last_head_id = some it.concept_id) := by
  unfold stagnation_check
  split
  · rename_i hp
    refine ⟨rfl, hcount, rfl, ?_⟩
    intro it hit
    simp only [hp] at hit
    cases hit
  · rename_i item rest hp
    have hne : qs.last_head_id ≠ some item.concept_id := by
      refine hmis item ?_
      rw [hp]
      rfl
    rw [if_neg hne]
    refine ⟨rfl, rfl, rfl, ?_⟩
    intro it hit
    simp only [hp] at hit
    have heq2 : item = it := by
      simpa using hit
    subst heq2
    exact Or.inr rfl

/-- Case characterization of the loop body: timeout halt, empty-batch halt,
short-circuit halt, enough-matches halt after the queue update, or the
stagnation block's verdict. -/
lemma run_body_cases (env : Env) (term : String) (ma : Nat) (qs : QueueState)
    (it : Nat) :
    (env.timeoutAt it = true ∧
      run_body env term ma qs it =
        { state := { qs with stop_reason := some "timeout" }, halted := true
          dispatched := [], counted := [] }) ∨
    (env.timeoutAt it = false ∧ (queue_next_batch qs).1.has_batch = false ∧
      run_body env term ma qs it =
        { state := (queue_next_batch qs).2, halted := true
          dispatched := [], counted := [] }) ∨
    (env.timeoutAt it = false ∧ (queue_next_batch qs).1.has_batch = true ∧
      (apply_short_circuit (queue_next_batch qs).2
        (batch_concepts env (queue_next_batch qs).1.ids) term ma).2 = true ∧
      run_body env term ma qs it =
        { state := (apply_short_circuit (queue_next_batch qs).2
            (batch_concepts env (queue_next_batch qs).1.ids) term ma).1
          halted := true
          dispatched := (queue_next_batch qs).1.ids, counted := [] }) ∨
    (env.timeoutAt it = false ∧ (queue_next_batch qs).1.has_batch = true ∧
      (apply_short_circuit (queue_next_batch qs).2
        (batch_concepts env (queue_next_batch qs).1.ids) term ma).2 = false ∧
      ma ≤ (update_queue_from_batch
        (apply_short_circuit (queue_next_batch qs).2
          (batch_concepts env (queue_next_batch qs).1.ids) term ma).1
        (queue_next_batch qs).1.ids (queue_next_batch qs).1.depths
        (batch_concepts env (queue_next_batch qs).1.ids)
        (oracle_decisions env it (queue_next_batch qs).1.ids)).accepted_concepts.length ∧
      run_body env term ma qs it =
        { state := { (update_queue_from_batch
            (apply_short_circuit (queue_next_batch qs).2
              (batch_concepts env (queue_next_batch qs).1.ids) term ma).1
            (queue_next_batch qs).1.ids (queue_next_batch qs).1.depths
            (batch_concepts env (queue_next_batch qs).1.ids)
            (oracle_decisions env it (queue_next_batch qs).1.ids)) with
            stop_reason := some "enough_matches" }
          halted := true
          dispatched := (queue_next_batch qs).1.ids
          counted := (queue_next_batch qs).1.ids }) ∨
    (env.timeoutAt it = false ∧ (queue_next_batch qs).1.has_batch = true ∧
      (apply_short_circuit (queue_next_batch qs).2
        (batch_concepts env (queue_next_batch qs).1.ids) term ma).2 = false ∧
      ¬ ma ≤ (update_queue_from_batch
        (apply_short_circuit (queue_next_batch qs).2
          (batch_concepts env (queue_next_batch qs).1.ids) term ma).1
        (queue_next_batch qs).1.ids (queue_next_batch qs).1.depths
        (batch_concepts env (queue_next_batch qs).1.ids)
        (oracle_decisions env it (queue_next_batch qs).1.ids)).accepted_concepts.length ∧
      run_body env term ma qs it =
        { state := (stagnation_check (update_queue_from_batch
            (apply_short_circuit (queue_next_batch qs).2
              (batch_concepts env (queue_next_batch qs).1.ids) term ma).1
            (queue_next_batch qs).1.ids (queue_next_batch qs).1.depths
            (batch_concepts env (queue_next_batch qs).1.ids)
            (oracle_decisions env it (queue_next_batch qs).1.ids))).1
          halted := (stagnation_check (update_queue_from_batch
            (apply_short_circuit (queue_next_batch qs).2
              (batch_concepts env (queue_next_batch qs).1.ids) term ma).1
            (queue_next_batch qs).1.ids (queue_next_batch qs).1.depths
            (batch_concepts env (queue_next_batch qs).1.ids)
            (oracle_decisions env it (queue_next_batch qs).1.ids))).2
          dispatched := (queue_next_batch qs).1.ids
          counted := (queue_next_batch qs).1.ids }) := by
  unfold run_body
  by_cases ht : env.timeoutAt it
  · rw [if_pos ht]
    exact Or.inl ⟨ht, rfl⟩
  · rw [if_neg ht]
    have ht2 : env.timeoutAt it = false := by
      cases h : env.timeoutAt it
      · rfl
      · exact absurd h ht
    by_cases hhb : (queue_next_batch qs).1.has_batch
    · have hnb : (!(queue_next_batch qs).1.has_batch) = false := by
        rw [hhb]
        rfl
      rw [if_neg (by simp [hnb])]
      by_cases hsc : (apply_short_circuit (queue_next_batch qs).2
          (batch_concepts env (queue_next_batch qs).1.ids) term ma).2
      · rw [if_pos hsc]
        exact Or.inr (Or.inr (Or.inl ⟨ht2, hhb, hsc, rfl⟩))
      · rw [if_neg hsc]
        have hsc2 : (apply_short_circuit (queue_next_batch qs).2
            (batch_concepts env (queue_next_batch qs).1.ids) term ma).2 = false := by
          cases h : (apply_short_circuit (queue_next_batch qs).2
              (batch_concepts env (queue_next_batch qs).1.ids) term ma).2
          · rfl
          · exact absurd h hsc
        by_cases hma : ma ≤ (update_queue_from_batch
            (apply_short_circuit (queue_next_batch qs).2
              (batch_concepts env (queue_next_batch qs).1.ids) term ma).1
            (queue_next_batch qs).1.ids (queue_next_batch qs).1.depths
            (batch_concepts env (queue_next_batch qs).1.ids)
            (oracle_decisions env it (queue_next_batch qs).1.ids)).accepted_concepts.length
        · rw [if_pos hma]
          exact Or.inr (Or.inr (Or.inr (Or.inl ⟨ht2, hhb, hsc2, hma, rfl⟩)))
        · rw [if_neg hma]
          exact Or.inr (Or.inr (Or.inr (Or.inr ⟨ht2, hhb, hsc2, hma, rfl⟩)))
    · have hnb : (queue_next_batch qs).1.has_batch = false := by
        cases h : (queue_next_batch qs).1.has_batch
        · rfl
        · exact absurd h hhb
      rw [if_pos (by simp [hnb])]
      exact Or.inr (Or.inl ⟨ht2, hnb, rfl⟩)

/-- Aggregate facts about one loop-body execution: `history`, `max_visits`,
`max_depth` and `resolved` never change; `visit_count` grows exactly by the
number of ids that reached the queue update; `stop_reason` is unchanged or
one of the three reasons the body can write; and a non-halting body
dispatched a non-empty batch that was fully counted. -/
lemma run_body_facts (env : Env) (term : String) (ma : Nat) (qs : QueueState)
    (it : Nat) :
    (run_body env term ma qs it).state.history = qs.history ∧
    (run_body env term ma qs it).state.max_visits = qs.max_visits ∧
    (run_body env term ma qs it).state.max_depth = qs.max_depth ∧
    (run_body env term ma qs it).state.resolved = qs.resolved ∧
    (run_body env term ma qs it).state.visit_count =
      qs.visit_count + (run_body env term ma qs it).counted.length ∧
    ((run_body env term ma qs it).state.stop_reason = qs.stop_reason ∨
      (run_body env term ma qs it).state.stop_reason = some "timeout" ∨
      (run_body env term ma qs it).state.stop_reason = some "enough_matches" ∨
      (run_body env term ma qs it).state.stop_reason = some "stagnation") ∧
    ((run_body env term ma qs it).halted = false →
      (run_body env term ma qs it).dispatched ≠ [] ∧
      (run_body env term ma qs it).counted =
        (run_body env term ma qs it).dispatched) := by
  rcases run_body_cases env term ma qs it with
    ⟨ht, h⟩ | ⟨ht, hnb, h⟩ | ⟨ht, hhb, hsc, h⟩ | ⟨ht, hhb, hsc, hma, h⟩ |
    ⟨ht, hhb, hsc, hma, h⟩
  · rw [h]
    exact ⟨rfl, rfl, rfl, rfl, by simp, Or.inr (Or.inl rfl),
      fun hcon => Bool.noConfusion hcon⟩
  · rw [h]
    obtain ⟨_, q2, q3, q4, _, _, _, q8, q9, _, q11, _⟩ :=
      queue_next_batch_preserves qs
    exact ⟨q3, q8, q9, q11, by simpa using q2, Or.inl q4,
      fun hcon => Bool.noConfusion hcon⟩
  · rw [h]
    obtain ⟨_, q2, q3, q4, _, _, _, q8, q9, _, q11, _⟩ :=
      queue_next_batch_preserves qs
    obtain ⟨_, _, s3, s4, _, _, s7, s8, _, s10, _, _, shalt, _, _⟩ :=
      apply_short_circuit_preserves (queue_next_batch qs).2
        (batch_concepts env (queue_next_batch qs).1.ids) term ma
    refine ⟨by rw [s4, q3], by rw [s7, q8], by rw [s8, q9], by rw [s10, q11],
      ?_, ?_, fun hcon => Bool.noConfusion hcon⟩
    · simp only [List.length_nil]
      rw [s3, q2]
      omega
    · exact Or.inr (Or.inr (Or.inl (shalt hsc)))
  · rw [h]
    obtain ⟨_, q2, q3, q4, _, _, _, q8, q9, _, q11, _⟩ :=
      queue_next_batch_preserves qs
    obtain ⟨_, _, s3, s4, _, _, s7, s8, _, s10, _, _, _, _, _⟩ :=
      apply_short_circuit_preserves (queue_next_batch qs).2
        (batch_concepts env (queue_next_batch qs).1.ids) term ma
    obtain ⟨u1, u2, _, _, _, u6, u7, _, u9, _, _, _, _⟩ :=
      update_queue_facts
        (apply_short_circuit (queue_next_batch qs).2
          (batch_concepts env (queue_next_batch qs).1.ids) term ma).1
        (queue_next_batch qs).1.ids (queue_next_batch qs).1.depths
        (batch_concepts env (queue_next_batch qs).1.ids)
        (oracle_decisions env it (queue_next_batch qs).1.ids)
    refine ⟨by rw [u2, s4, q3], by rw [u6, s7, q8], by rw [u7, s8, q9],
      by rw [u9, s10, q11], ?_, Or.inr (Or.inr (Or.inl rfl)),
      fun hcon => Bool.noConfusion hcon⟩
    · simp only
      rw [u1, s3, q2]
  · rw [h]
    obtain ⟨_, q2, q3, q4, _, _, _, q8, q9, _, q11, _⟩ :=
      queue_next_batch_preserves qs
    obtain ⟨_, _, s3, s4, _, _, s7, s8, _, s10, _, _, _, snohalt, _⟩ :=
      apply_short_circuit_preserves (queue_next_batch qs).2
        (batch_concepts env (queue_next_batch qs).1.ids) term ma
    obtain ⟨u1, u2, u3, _, _, u6, u7, _, u9, _, _, _, _⟩ :=
      update_queue_facts
        (apply_short_circuit (queue_next_batch qs).2
          (batch_concepts env (queue_next_batch qs).1.ids) term ma).1
        (queue_next_batch qs).1.ids (queue_next_batch qs).1.depths
        (batch_concepts env (queue_next_batch qs).1.ids)
        (oracle_decisions env it (queue_next_batch qs).1.ids)
    obtain ⟨_, _, t3, _, t5, t6, t7, t8, t9, _, t11, thalt, tnohalt⟩ :=
      stagnation_check_preserves
        (update_queue_from_batch
          (apply_short_circuit (queue_next_batch qs).2
            (batch_concepts env (queue_next_batch qs).1.ids) term ma).1
          (queue_next_batch qs).1.ids (queue_next_batch qs).1.depths
          (batch_concepts env (queue_next_batch qs).1.ids)
          (oracle_decisions env it (queue_next_batch qs).1.ids))
    refine ⟨by rw [t5, u2, s4, q3], by rw [t6, u6, s7, q8],
      by rw [t7, u7, s8, q9], by rw [t9, u9, s10, q11], ?_, ?_, ?_⟩
    · simp only
      rw [t3, u1, s3, q2]
    · cases hst : (stagnation_check
          (update_queue_from_batch
            (apply_short_circuit (queue_next_batch qs).2
              (batch_concepts env (queue_next_batch qs).1.ids) term ma).1
            (queue_next_batch qs).1.ids (queue_next_batch qs).1.depths
            (batch_concepts env (queue_next_batch qs).1.ids)
            (oracle_decisions env it (queue_next_batch qs).1.ids))).2 with
      | false =>
        left
        rw [tnohalt hst, u3, snohalt hsc, q4]
      | true =>
        exact Or.inr (Or.inr (Or.inr (thalt hst)))
    · intro _
      refine ⟨?_, rfl⟩
      exact (queue_next_batch_has_batch qs hhb).1

/-- One-step unfolding of the fueled loop. -/
lemma exploration_loop_succ (env : Env) (term : String) (ma : Nat)
    (fuel : Nat) (qs : QueueState) (it : Nat) :
    exploration_loop env term ma (fuel + 1) qs it =
      if loop_guard qs then
        (if (run_body env term ma qs (it + 1)).halted then
          { state := (run_body env term ma qs (it + 1)).state
            batches := if (run_body env term ma qs (it + 1)).dispatched.isEmpty
              then [] else [(run_body env term ma qs (it + 1)).dispatched]
            counted := if (run_body env term ma qs (it + 1)).counted.isEmpty
              then [] else [(run_body env term ma qs (it + 1)).counted]
            completed := true }
        else
          { state := (exploration_loop env term ma fuel
              (run_body env term ma qs (it + 1)).state (it + 1)).state
            batches := (if (run_body env term ma qs (it + 1)).dispatched.isEmpty
              then [] else [(run_body env term ma qs (it + 1)).dispatched]) ++
              (exploration_loop env term ma fuel
                (run_body env term ma qs (it + 1)).state (it + 1)).batches
            counted := (if (run_body env term ma qs (it + 1)).counted.isEmpty
              then [] else [(run_body env term ma qs (it + 1)).counted]) ++
              (exploration_loop env term ma fuel
                (run_body env term ma qs (it + 1)).state (it + 1)).counted
            completed := (exploration_loop env term ma fuel
              (run_body env term ma qs (it + 1)).state (it + 1)).completed })
      else { state := qs, batches := [], counted := [], completed := true } :=
  rfl

/-- The loop guard requires `visit_count < max_visits`. -/
lemma loop_guard_lt (qs : QueueState) (hg : loop_guard qs = true) :
    qs.visit_count < qs.max_visits := by
  unfold loop_guard at hg
  rcases (Bool.and_eq_true _ _).mp hg with ⟨h1, _⟩
  rcases (Bool.and_eq_true _ _).mp h1 with ⟨_, h3⟩
  exact of_decide_eq_true h3

/-- The loop never touches `history`. -/
lemma loop_history (env : Env) (term : String) (ma : Nat) :
    ∀ (fuel : Nat) (qs : QueueState) (it : Nat),
    (exploration_loop env term ma fuel qs it).state.history = qs.history := by
  intro fuel
  induction fuel with
  | zero => intro qs it; rfl
  | succ n ih =>
    intro qs it
    rw [exploration_loop_succ]
    by_cases hg : loop_guard qs
    · rw [if_pos hg]
      have hb := (run_body_facts env term ma qs (it + 1)).1
      by_cases hh : (run_body env term ma qs (it + 1)).halted
      · rw [if_pos hh]
        exact hb
      · rw [if_neg hh]
        simp only
        rw [ih]
        exact hb
    · rw [if_neg hg]

/-- The loop's final `stop_reason` is the initial one or one of the three
values the body can write (`timeout`, `enough_matches`, `stagnation`). -/
lemma loop_stop_reason (env : Env) (term : String) (ma : Nat) :
    ∀ (fuel : Nat) (qs : QueueState) (it : Nat),
    (exploration_loop env term ma fuel qs it).state.stop_reason =
      qs.stop_reason ∨
    (exploration_loop env term ma fuel qs it).state.stop_reason =
      some "timeout" ∨
    (exploration_loop env term ma fuel qs it).state.stop_reason =
      some "enough_matches" ∨
    (exploration_loop env term ma fuel qs it).state.stop_reason =
      some "stagnation" := by
  intro fuel
  induction fuel with
  | zero => intro qs it; exact Or.inl rfl
  | succ n ih =>
    intro qs it
    rw [exploration_loop_succ]
    by_cases hg : loop_guard qs
    · rw [if_pos hg]
      have hb := (run_body_facts env term ma qs (it + 1)).2.2.2.2.2.1
      by_cases hh : (run_body env term ma qs (it + 1)).halted
      · rw [if_pos hh]
        exact hb
      · rw [if_neg hh]
        simp only
        rcases ih (run_body env term ma qs (it + 1)).state (it + 1) with
          h | h | h | h
        · rw [h]
          exact hb
        · exact Or.inr (Or.inl h)
        · exact Or.inr (Or.inr (Or.inl h))
        · exact Or.inr (Or.inr (Or.inr h))
    · rw [if_neg hg]
      exact Or.inl rfl

/-- Flattening the singleton-or-empty wrapper used by the loop's observers
recovers the original list. -/
lemma wrap_flatten {α : Type} (l : List α) :
    (if l.isEmpty then ([] : List (List α)) else [l]).flatten = l := by
  by_cases h : l.isEmpty
  · rw [if_pos h]
    rw [List.isEmpty_iff.mp h]
    rfl
  · rw [if_neg h]
    simp

/-- `visit_count` over a run equals its initial value plus the total number
of ids that reached the queue update, counted with multiplicity. -/
lemma loop_visit_count (env : Env) (term : String) (ma : Nat) :
    ∀ (fuel : Nat) (qs : QueueState) (it : Nat),
    (exploration_loop env term ma fuel qs it).state.visit_count =
      qs.visit_count +
        (exploration_loop env term ma fuel qs it).counted.flatten.length := by
  intro fuel
  induction fuel with
  | zero => intro qs it; simp [exploration_loop]
  | succ n ih =>
    intro qs it
    rw [exploration_loop_succ]
    by_cases hg : loop_guard qs
    · rw [if_pos hg]
      have hb := (run_body_facts env term ma qs (it + 1)).2.2.2.2.1
      by_cases hh : (run_body env term ma qs (it + 1)).halted
      · rw [if_pos hh]
        simp only
        rw [wrap_flatten]
        exact hb
      · rw [if_neg hh]
        simp only
        rw [ih, hb, List.flatten_append, List.length_append, wrap_flatten]
        omega
    · rw [if_neg hg]
      simp

/-- With fuel exceeding `max_visits - visit_count` the loop reaches its exit
(it never runs out of fuel) and dispatches at most `max_visits - visit_count`
batches. -/
lemma loop_completes (env : Env) (term : String) (ma : Nat) :
    ∀ (fuel : Nat) (qs : QueueState) (it : Nat),
    qs.max_visits - qs.visit_count < fuel →
    (exploration_loop env term ma fuel qs it).completed = true ∧
    (exploration_loop env term ma fuel qs it).batches.length ≤
      qs.max_visits - qs.visit_count := by
  intro fuel
  induction fuel with
  | zero => intro qs it h; omega
  | succ n ih =>
    intro qs it h
    rw [exploration_loop_succ]
    by_cases hg : loop_guard qs
    · rw [if_pos hg]
      have hlt := loop_guard_lt qs hg
      have hb := run_body_facts env term ma qs (it + 1)
      by_cases hh : (run_body env term ma qs (it + 1)).halted
      · rw [if_pos hh]
        refine ⟨rfl, ?_⟩
        by_cases hd : (run_body env term ma qs (it + 1)).dispatched.isEmpty
        · rw [if_pos hd]
          simp
        · rw [if_neg hd]
          simp only [List.length_cons, List.length_nil]
          omega
      · rw [if_neg hh]
        simp only
        obtain ⟨hne, hcd⟩ := hb.2.2.2.2.2.2 (by
          cases hhv : (run_body env term ma qs (it + 1)).halted
          · rfl
          · exact absurd hhv hh)
        have hcnt := hb.2.2.2.2.1
        have hmv := hb.2.1
        have hclen : 1 ≤ (run_body env term ma qs (it + 1)).counted.length := by
          rw [hcd]
          cases hd : (run_body env term ma qs (it + 1)).dispatched with
          | nil => exact absurd hd hne
          | cons a t => simp
        have hrec := ih (run_body env term ma qs (it + 1)).state (it + 1) (by
          rw [hmv, hcnt]
          omega)
        refine ⟨hrec.1, ?_⟩
        rw [List.length_append]
        have hdb : (if (run_body env term ma qs (it + 1)).dispatched.isEmpty
            then ([] : List (List Int))
            else [(run_body env term ma qs (it + 1)).dispatched]).length ≤ 1 := by
          by_cases hd : (run_body env term ma qs (it + 1)).dispatched.isEmpty
          · rw [if_pos hd]; simp
          · rw [if_neg hd]; simp
        have hrest := hrec.2
        rw [hmv, hcnt] at hrest
        omega
    · rw [if_neg hg]
      simp

/-- Sufficient fuel makes the fuel parameter semantically irrelevant: any
two sufficient fuels give the same run. -/
lemma loop_stable (env : Env) (term : String) (ma : Nat) :
    ∀ (fuel1 fuel2 : Nat) (qs : QueueState) (it : Nat),
    qs.max_visits - qs.visit_count < fuel1 →
    qs.max_visits - qs.visit_count < fuel2 →
    exploration_loop env term ma fuel1 qs it =
      exploration_loop env term ma fuel2 qs it := by
  intro fuel1
  induction fuel1 with
  | zero => intro fuel2 qs it h1 _; omega
  | succ n ih =>
    intro fuel2 qs it h1 h2
    cases fuel2 with
    | zero => omega
    | succ m =>
      rw [exploration_loop_succ, exploration_loop_succ]
      by_cases hg : loop_guard qs
      · rw [if_pos hg, if_pos hg]
        have hlt := loop_guard_lt qs hg
        have hb := run_body_facts env term ma qs (it + 1)
        by_cases hh : (run_body env term ma qs (it + 1)).halted
        · rw [if_pos hh, if_pos hh]
        · rw [if_neg hh, if_neg hh]
          obtain ⟨hne, hcd⟩ := hb.2.2.2.2.2.2 (by
            cases hhv : (run_body env term ma qs (it + 1)).halted
            · rfl
            · exact absurd hhv hh)
          have hcnt := hb.2.2.2.2.1
          have hmv := hb.2.1
          have hclen : 1 ≤ (run_body env term ma qs (it + 1)).counted.length := by
            rw [hcd]
            cases hd : (run_body env term ma qs (it + 1)).dispatched with
            | nil => exact absurd hd hne
            | cons a t => simp
          have hrec := ih m (run_body env term ma qs (it + 1)).state (it + 1)
            (by rw [hmv, hcnt]; omega) (by rw [hmv, hcnt]; omega)
          rw [hrec]
      · rw [if_neg hg, if_neg hg]

/-- Head-of-option membership helper. -/
lemma mem_of_head_eq {α : Type} (l : List α) (a : α) (h : l.head? = some a) :
    a ∈ l := by
  cases l with
  | nil => cases h
  | cons x t =>
    have : x = a := by simpa using h
    subst this
    simp

/-- Under the engine's reachable-state invariant the loop body never
increments the stagnation counter and never writes
`stop_reason = "stagnation"`; a non-halting body re-establishes the
invariant. -/
lemma run_body_staginv (env : Env) (term : String) (ma : Nat)
    (qs : QueueState) (it : Nat) (hinv : StagInv qs) :
    (run_body env term ma qs it).state.stagnation_count = 0 ∧
    ((run_body env term ma qs it).state.stop_reason = qs.stop_reason ∨
      (run_body env term ma qs it).state.stop_reason = some "timeout" ∨
      (run_body env term ma qs it).state.stop_reason = some "enough_matches") ∧
    ((run_body env term ma qs it).halted = false →
      StagInv (run_body env term ma qs it).state) := by
  obtain ⟨hcnt0, hhead⟩ := hinv
  rcases run_body_cases env term ma qs it with
    ⟨ht, h⟩ | ⟨ht, hnb, h⟩ | ⟨ht, hhb, hsc, h⟩ | ⟨ht, hhb, hsc, hma, h⟩ |
    ⟨ht, hhb, hsc, hma, h⟩
  · rw [h]
    exact ⟨hcnt0, Or.inr (Or.inl rfl), fun hcon => Bool.noConfusion hcon⟩
  · rw [h]
    obtain ⟨_, _, _, q4, _, _, q7, _, _, _, _, _⟩ := queue_next_batch_preserves qs
    exact ⟨by rw [q7]; exact hcnt0, Or.inl q4,
      fun hcon => Bool.noConfusion hcon⟩
  · rw [h]
    obtain ⟨_, _, _, _, _, _, q7, _, _, _, _, _⟩ := queue_next_batch_preserves qs
    obtain ⟨_, _, _, _, _, s6, _, _, _, _, _, _, shalt, _, _⟩ :=
      apply_short_circuit_preserves (queue_next_batch qs).2
        (batch_concepts env (queue_next_batch qs).1.ids) term ma
    exact ⟨by rw [s6, q7]; exact hcnt0, Or.inr (Or.inr (shalt hsc)),
      fun hcon => Bool.noConfusion hcon⟩
  · rw [h]
    obtain ⟨_, _, _, _, _, _, q7, _, _, _, _, _⟩ := queue_next_batch_preserves qs
    obtain ⟨_, _, _, _, _, s6, _, _, _, _, _, _, _, _, _⟩ :=
      apply_short_circuit_preserves (queue_next_batch qs).2
        (batch_concepts env (queue_next_batch qs).1.ids) term ma
    obtain ⟨_, _, _, _, u5, _, _, _, _, _, _, _, _⟩ :=
      update_queue_facts
        (apply_short_circuit (queue_next_batch qs).2
          (batch_concepts env (queue_next_batch qs).1.ids) term ma).1
        (queue_next_batch qs).1.ids (queue_next_batch qs).1.depths
        (batch_concepts env (queue_next_batch qs).1.ids)
        (oracle_decisions env it (queue_next_batch qs).1.ids)
    exact ⟨by simp only; rw [u5, s6, q7]; exact hcnt0,
      Or.inr (Or.inr rfl), fun hcon => Bool.noConfusion hcon⟩
  · obtain ⟨_, _, _, q4, _, q6, q7, _, _, _, _, _⟩ := queue_next_batch_preserves qs
    obtain ⟨_, _, _, _, s5, s6, _, _, _, _, _, _, _, snohalt, _⟩ :=
      apply_short_circuit_preserves (queue_next_batch qs).2
        (batch_concepts env (queue_next_batch qs).1.ids) term ma
    obtain ⟨_, _, u3, u4, u5, _, _, _, _, _, _, u12, _⟩ :=
      update_queue_facts
        (apply_short_circuit (queue_next_batch qs).2
          (batch_concepts env (queue_next_batch qs).1.ids) term ma).1
        (queue_next_batch qs).1.ids (queue_next_batch qs).1.depths
        (batch_concepts env (queue_next_batch qs).1.ids)
        (oracle_decisions env it (queue_next_batch qs).1.ids)
    have hcount3 : (update_queue_from_batch
        (apply_short_circuit (queue_next_batch qs).2
          (batch_concepts env (queue_next_batch qs).1.ids) term ma).1
        (queue_next_batch qs).1.ids (queue_next_batch qs).1.depths
        (batch_concepts env (queue_next_batch qs).1.ids)
        (oracle_decisions env it (queue_next_batch qs).1.ids)).stagnation_count
        = 0 := by
      rw [u5, s6, q7]
      exact hcnt0
    have hlast3 : (update_queue_from_batch
        (apply_short_circuit (queue_next_batch qs).2
          (batch_concepts env (queue_next_batch qs).1.ids) term ma).1
        (queue_next_batch qs).1.ids (queue_next_batch qs).1.depths
        (batch_concepts env (queue_next_batch qs).1.ids)
        (oracle_decisions env it (queue_next_batch qs).1.ids)).last_head_id
        = qs.last_head_id := by
      rw [u4, s5, q6]
    have hstop3 : (update_queue_from_batch
        (apply_short_circuit (queue_next_batch qs).2
          (batch_concepts env (queue_next_batch qs).1.ids) term ma).1
        (queue_next_batch qs).1.ids (queue_next_batch qs).1.depths
        (batch_concepts env (queue_next_batch qs).1.ids)
        (oracle_decisions env it (queue_next_batch qs).1.ids)).stop_reason
        = qs.stop_reason := by
      rw [u3, snohalt hsc, q4]
    obtain ⟨hne, first, rest, hpend, hfmem⟩ := queue_next_batch_has_batch qs hhb
    have hmis : ∀ it2, (update_queue_from_batch
        (apply_short_circuit (queue_next_batch qs).2
          (batch_concepts env (queue_next_batch qs).1.ids) term ma).1
        (queue_next_batch qs).1.ids (queue_next_batch qs).1.depths
        (batch_concepts env (queue_next_batch qs).1.ids)
        (oracle_decisions env it (queue_next_batch qs).1.ids)).pending.head? =
          some it2 →
        (update_queue_from_batch
        (apply_short_circuit (queue_next_batch qs).2
          (batch_concepts env (queue_next_batch qs).1.ids) term ma).1
        (queue_next_batch qs).1.ids (queue_next_batch qs).1.depths
        (batch_concepts env (queue_next_batch qs).1.ids)
        (oracle_decisions env it (queue_next_batch qs).1.ids)).last_head_id ≠
          some it2.concept_id := by
      intro it2 hh2 hcon
      have hmem := mem_of_head_eq _ _ hh2
      have hnot := u12 it2 hmem
      rw [hlast3] at hcon
      rcases hhead first (by rw [hpend]; rfl) with hn | hs
      · rw [hn] at hcon
        cases hcon
      · rw [hs] at hcon
        have : first.concept_id = it2.concept_id := by
          simpa using hcon
        rw [this] at hfmem
        exact hnot hfmem
    have hf := stagnation_check_fresh_head _ hcount3 hmis
    rw [h]
    refine ⟨hf.2.1, Or.inl (by rw [hf.2.2.1, hstop3]), ?_⟩
    intro _
    exact ⟨hf.2.1, hf.2.2.2⟩

/-- Over any run from a state satisfying the reachable-state invariant, the
stagnation counter stays zero and the loop never records
`stop_reason = "stagnation"`. -/
lemma loop_staginv (env : Env) (term : String) (ma : Nat) :
    ∀ (fuel : Nat) (qs : QueueState) (it : Nat), StagInv qs →
    (exploration_loop env term ma fuel qs it).state.stagnation_count = 0 ∧
    ((exploration_loop env term ma fuel qs it).state.stop_reason =
        qs.stop_reason ∨
      (exploration_loop env term ma fuel qs it).state.stop_reason =
        some "timeout" ∨
      (exploration_loop env term ma fuel qs it).state.stop_reason =
        some "enough_matches") := by
  intro fuel
  induction fuel with
  | zero => intro qs it hinv; exact ⟨hinv.1, Or.inl rfl⟩
  | succ n ih =>
    intro qs it hinv
    rw [exploration_loop_succ]
    by_cases hg : loop_guard qs
    · rw [if_pos hg]
      have hb := run_body_staginv env term ma qs (it + 1) hinv
      by_cases hh : (run_body env term ma qs (it + 1)).halted
      · rw [if_pos hh]
        exact ⟨hb.1, hb.2.1⟩
      · rw [if_neg hh]
        simp only
        have hinv2 := hb.2.2 (by
          cases hhv : (run_body env term ma qs (it + 1)).halted
          · rfl
          · exact absurd hhv hh)
        have hrec := ih (run_body env term ma qs (it + 1)).state (it + 1) hinv2
        refine ⟨hrec.1, ?_⟩
        rcases hrec.2 with hr | hr | hr
        · rw [hr]
          exact hb.2.1
        · exact Or.inr (Or.inl hr)
        · exact Or.inr (Or.inr hr)
    · rw [if_neg hg]
      exact ⟨hinv.1, Or.inl rfl⟩

/-- Depth containment is preserved by one loop-body execution. -/
lemma run_body_depth_inv (env : Env) (term : String) (ma : Nat)
    (qs : QueueState) (it : Nat) (hinv : pending_depth_inv qs) :
    pending_depth_inv (run_body env term ma qs it).state := by
  have hq : pending_depth_inv (queue_next_batch qs).2 := by
    intro item hitem
    rw [(queue_next_batch_preserves qs).2.2.2.2.2.2.2.2.1]
    exact hinv item (queue_next_batch_pending_src qs item hitem)
  have hs : pending_depth_inv (apply_short_circuit (queue_next_batch qs).2
      (batch_concepts env (queue_next_batch qs).1.ids) term ma).1 := by
    intro item hitem
    obtain ⟨s1, _, _, _, _, _, _, s8, _, _, _, _, _, _, _⟩ :=
      apply_short_circuit_preserves (queue_next_batch qs).2
        (batch_concepts env (queue_next_batch qs).1.ids) term ma
    rw [s8]
    rw [s1] at hitem
    exact hq item hitem
  have hu : pending_depth_inv (update_queue_from_batch
      (apply_short_circuit (queue_next_batch qs).2
        (batch_concepts env (queue_next_batch qs).1.ids) term ma).1
      (queue_next_batch qs).1.ids (queue_next_batch qs).1.depths
      (batch_concepts env (queue_next_batch qs).1.ids)
      (oracle_decisions env it (queue_next_batch qs).1.ids)) :=
    update_queue_depth_inv _ _ _ _ _ hs
  rcases run_body_cases env term ma qs it with
    ⟨ht, h⟩ | ⟨ht, hnb, h⟩ | ⟨ht, hhb, hsc, h⟩ | ⟨ht, hhb, hsc, hma, h⟩ |
    ⟨ht, hhb, hsc, hma, h⟩
  · rw [h]
    exact hinv
  · rw [h]
    exact hq
  · rw [h]
    exact hs
  · rw [h]
    exact hu
  · rw [h]
    intro item hitem
    obtain ⟨t1, _, _, _, _, _, t7, _, _, _, _, _, _⟩ :=
      stagnation_check_preserves
        (update_queue_from_batch
          (apply_short_circuit (queue_next_batch qs).2
            (batch_concepts env (queue_next_batch qs).1.ids) term ma).1
          (queue_next_batch qs).1.ids (queue_next_batch qs).1.depths
          (batch_concepts env (queue_next_batch qs).1.ids)
          (oracle_decisions env it (queue_next_batch qs).1.ids))
    simp only at hitem ⊢
    rw [t7]
    rw [t1] at hitem
    exact hu item hitem

/-- `_finalize_resolution` always produces one of the three statuses. -/
lemma finalize_status (qs : QueueState) :
    (finalize_resolution qs).status = "resolved" ∨
    (finalize_resolution qs).status = "fallback" ∨
    (finalize_resolution qs).status = "unresolved" := by
  unfold finalize_resolution
  by_cases h : !qs.accepted_concepts.isEmpty
  · rw [if_pos h]
    exact Or.inl rfl
  · rw [if_neg h]
    cases qs.best_fallback with
    | none => exact Or.inr (Or.inr rfl)
    | some fb => exact Or.inr (Or.inl rfl)

/-- `_finalize_resolution` carries the state's diagnostics into the outcome
unchanged. -/
lemma finalize_carries (qs : QueueState) :
    (finalize_resolution qs).history = qs.history ∧
    (finalize_resolution qs).visit_count = qs.visit_count ∧
    (finalize_resolution qs).stop_reason = qs.stop_reason ∧
    (finalize_resolution qs).pending_candidates =
      qs.pending.map (fun item => item.concept_id) := by
  unfold finalize_resolution
  by_cases h : !qs.accepted_concepts.isEmpty
  · rw [if_pos h]
    exact ⟨rfl, rfl, rfl, rfl⟩
  · rw [if_neg h]
    cases qs.best_fallback with
    | none => exact ⟨rfl, rfl, rfl, rfl⟩
    | some fb => exact ⟨rfl, rfl, rfl, rfl⟩

/-- With at least one search hit, `_process_single_concept_set` finalizes
the exploration loop's state into the result's `resolution_outcome`. -/
lemma process_with_hits (env : Env) (cs : ConceptSetSpec) (cfg : EngineConfig)
    (mq : Nat) (hne : (gather_search_results env cs mq).isEmpty = false) :
    (process_single_concept_set env cs cfg mq).resolution_outcome =
      some (finalize_resolution
        (exploration_loop env cs.name cfg.max_accepted (sufficient_fuel cfg)
          (init_queue_state
            (match env.select with
              | some ids => ids
              | none => fallback_selection (gather_search_results env cs mq))
            env.select_message cfg) 0).state) := by
  unfold process_single_concept_set
  rw [if_neg (by rw [hne]; exact fun hcon => Bool.noConfusion hcon)]

/-- Aggregation with every worker succeeding is a filter-map over the
completion order. -/
lemma final_concept_sets_all_ok (env : Env) (cfg : EngineConfig) (mq : Nat)
    (specs : List ConceptSetSpec) :
    ∀ (events : List (Nat × Bool)) (acc : List SetResult),
    (∀ e ∈ events, e.2 = true) →
    events.foldl
      (fun acc e =>
        match specs[e.1]? with
        | some cs =>
          acc ++ [if e.2 then process_single_concept_set env cs cfg mq
                  else empty_set_result cs]
        | none => acc)
      acc =
    acc ++ (events.map Prod.fst).filterMap
      (fun i => (specs[i]?).map
        (fun cs => process_single_concept_set env cs cfg mq)) := by
  intro events
  induction events with
  | nil => intro acc _; simp
  | cons e t ih =>
    intro acc hok
    rw [List.foldl_cons, List.map_cons, List.filterMap_cons]
    have he : e.2 = true := hok e (by simp)
    cases hsp : specs[e.1]? with
    | none =>
      rw [ih acc (fun x hx => hok x (List.mem_cons_of_mem _ hx))]
      rfl
    | some cs =>
      rw [he]
      rw [ih (acc ++ [if true then process_single_concept_set env cs cfg mq
        else empty_set_result cs])
        (fun x hx => hok x (List.mem_cons_of_mem _ hx))]
      simp

/-- Filter-mapping indexed lookup over `range` recovers `map`. -/
lemma range_filterMap_get {α β : Type} (f : α → β) :
    ∀ (l : List α),
    (List.range l.length).filterMap (fun i => (l[i]?).map f) = l.map f := by
  intro l
  induction l with
  | nil => simp
  | cons a t ih =>
    rw [List.length_cons, List.range_succ_eq_map]
    rw [List.filterMap_cons_some (f := fun i => ((a :: t)[i]?).map f)
      (b := f a) (by simp)]
    rw [List.map_cons]
    congr 1
    rw [List.filterMap_map]
    have hcong : (List.range t.length).filterMap
        ((fun i => ((a :: t)[i]?).map f) ∘ Nat.succ) =
        (List.range t.length).filterMap (fun i => (t[i]?).map f) := by
      refine List.filterMap_congr ?_
      intro i _
      simp
    rw [hcong]
    exact ih

/-- A candidate with the standard flag, an exact or strong lexical match,
and a passing domain gate resolves the short-circuit scan with the reported
id, reason, and match-type evidence. -/
lemma sc_check_positive (term_norm : String) (sig_tokens : List (List Char))
    (c : FetchedConcept) (reason : String)
    (hstd : lowerStr (c.details.standardConcept.getD "") = "standard")
    (hmatch : (sc_exact_match term_norm c.details ||
      sc_strong_match sig_tokens c.details) = true)
    (hgate : sc_gate (upperStr (c.details.vocabularyId.getD ""))
      (c.details.conceptClassId.getD "") = some reason) :
    sc_check_concept term_norm sig_tokens c =
      some { concept_id := sc_concept_id c
             reason := reason
             match_type := if sc_exact_match term_norm c.details then "exact"
               else "strong_token" } := by
  unfold sc_check_concept
  simp only
  have hcond : (decide (lowerStr (c.details.standardConcept.getD "") =
      "standard") && (sc_exact_match term_norm c.details ||
      sc_strong_match sig_tokens c.details)) = true := by
    rw [decide_eq_true hstd, hmatch]
    rfl
  rw [if_pos hcond, hgate]

/-- The first scan hit after a prefix of misses resolves `findSome?`. -/
lemma findSome_append_first {α β : Type} (f : α → Option β) (r : β) :
    ∀ (pre : List α) (c : α) (post : List α),
    (∀ x ∈ pre, f x = none) → f c = some r →
    (pre ++ c :: post).findSome? f = some r := by
  intro pre
  induction pre with
  | nil =>
    intro c post _ hc
    rw [List.nil_append, List.findSome?_cons, hc]
  | cons a t ih =>
    intro c post hpre hc
    rw [List.cons_append, List.findSome?_cons, hpre a (by simp)]
    exact ih c post (fun x hx => hpre x (List.mem_cons_of_mem _ hx)) hc

/-- When the wrapper's `id` key agrees with its `concept_id`, the reported
short-circuit id is that id. -/
lemma sc_concept_id_of_id (c : FetchedConcept)
    (hid : c.details.id = some c.concept_id) :
    sc_concept_id c = some c.concept_id := by
  unfold sc_concept_id
  rw [hid]
  by_cases hz : c.concept_id = 0
  · simp [hz]
  · simp [hz]

/-- Positive acceptance path of the short-circuit block: with a findable
wrapper, a buildable entry, and a fresh id, the entry is appended. -/
lemma sc_accept_positive (qs : QueueState) (concepts : List FetchedConcept)
    (sc : SCResult) (sc_id : Int) (matched : FetchedConcept)
    (inc : IncludedConcept)
    (hid : sc.concept_id = some sc_id)
    (hfind : concepts.find? (fun c => decide (c.concept_id = sc_id)) =
      some matched)
    (hinc : included_from_details (some sc_id) matched.details = some inc)
    (hfresh : qs.accepted_concepts.all
      (fun x => decide (x.concept_id ≠ sc_id)) = true) :
    sc_accept qs concepts sc =
      { qs with accepted_concepts := qs.accepted_concepts ++ [inc] } := by
  unfold sc_accept
  rw [hid]
  simp only [hfind, hinc, hfresh, if_true, ite_true]

/-- Unfolding of the short-circuit block when the rule fires. -/
lemma apply_short_circuit_of_some (qs : QueueState)
    (concepts : List FetchedConcept) (term : String) (ma : Nat)
    (sc : SCResult)
    (htsc : try_short_circuit_resolution concepts term = some sc) :
    apply_short_circuit qs concepts term ma =
      (if ma ≤ (sc_accept qs concepts sc).accepted_concepts.length then
        ({ sc_accept qs concepts sc with stop_reason := some "enough_matches" },
          true)
       else (sc_accept qs concepts sc, false)) := by
  unfold apply_short_circuit
  rw [htsc]

/-- C1: for every configuration (`maxDepth ≥ 0` and `maxVisits ≥ 0` hold by
the `Nat` encoding) and every environment behavior — any wall-clock verdicts
and any oracle, including one that suggests new candidates on every
decision — the exploration main loop reaches its exit, dispatching at most
`max(maxVisits, 1)` batch iterations; fuel beyond `sufficient_fuel` never
changes the run (the wall-clock check can only halt it earlier, via the
`timeout` branch of the body). -/
theorem C1_loop_halts_within_visit_bound (env : Env) (term : String)
    (ma : Nat) (cfg : EngineConfig) (seeds : List Int) (msg : Option String)
    (extra : Nat) :
    (exploration_loop env term ma (sufficient_fuel cfg + extra)
      (init_queue_state seeds msg cfg) 0).completed = true ∧
    (exploration_loop env term ma (sufficient_fuel cfg + extra)
      (init_queue_state seeds msg cfg) 0).batches.length ≤
      Nat.max cfg.max_visits 1 ∧
    exploration_loop env term ma (sufficient_fuel cfg + extra)
      (init_queue_state seeds msg cfg) 0 =
      exploration_loop env term ma (sufficient_fuel cfg)
        (init_queue_state seeds msg cfg) 0 := by
  have hmv : (init_queue_state seeds msg cfg).max_visits = cfg.max_visits := rfl
  have hvc : (init_queue_state seeds msg cfg).visit_count = 0 := rfl
  have hbound : (init_queue_state seeds msg cfg).max_visits -
      (init_queue_state seeds msg cfg).visit_count < sufficient_fuel cfg := by
    rw [hmv, hvc]
    unfold sufficient_fuel
    have hmax : cfg.max_visits ≤ Nat.max cfg.max_visits 1 :=
      Nat.le_max_left cfg.max_visits 1
    omega
  have h1 := loop_completes env term ma (sufficient_fuel cfg + extra)
    (init_queue_state seeds msg cfg) 0 (by omega)
  refine ⟨h1.1, ?_, loop_stable env term ma (sufficient_fuel cfg + extra)
    (sufficient_fuel cfg) (init_queue_state seeds msg cfg) 0 (by omega) hbound⟩
  have h2 := h1.2
  rw [hmv, hvc] at h2
  have hmax : cfg.max_visits ≤ Nat.max cfg.max_visits 1 :=
    Nat.le_max_left cfg.max_visits 1
  omega

/-- C2 counterexample: scenario B of the spec (single seed 500 at
`maxDepth = 0`, oracle rejects it and suggests 600, which is dropped). The
run ends with `stop_reason = None` — not `"queue_exhausted"` as the claim
states — because the code never writes `queue_exhausted` (or `depth_limit`);
the outcome is `unresolved` with the default reason `"exhausted"`. -/
theorem C2_counterexample :
    scenarioB_run.state.stop_reason = none ∧
    ¬ scenarioB_run.state.stop_reason = some "queue_exhausted" ∧
    scenarioB_outcome.status = "unresolved" ∧
    scenarioB_outcome.reason = "exhausted" ∧
    scenarioB_outcome.stop_reason = none ∧
    scenarioB_run.batches = [[500]] := by
  refine ⟨by decide, by decide, by decide, by decide, by decide, by decide⟩

/-- C2 (amended): when the loop finds no dispatchable batch it simply
breaks, leaving `stop_reason` untouched; over any run from an initial state
the final `stop_reason` is `None`, `"timeout"`, `"enough_matches"` or
`"stagnation"` — the structural halting conditions `queue_exhausted` and
`depth_limit` are never recorded. -/
theorem C2_amended_no_structural_stop_reason (env : Env) (term : String)
    (ma fuel : Nat) (seeds : List Int) (msg : Option String)
    (cfg : EngineConfig) (it : Nat) :
    (exploration_loop env term ma fuel
      (init_queue_state seeds msg cfg) it).state.stop_reason = none ∨
    (exploration_loop env term ma fuel
      (init_queue_state seeds msg cfg) it).state.stop_reason =
      some "timeout" ∨
    (exploration_loop env term ma fuel
      (init_queue_state seeds msg cfg) it).state.stop_reason =
      some "enough_matches" ∨
    (exploration_loop env term ma fuel
      (init_queue_state seeds msg cfg) it).state.stop_reason =
      some "stagnation" :=
  loop_stop_reason env term ma fuel (init_queue_state seeds msg cfg) it

/-- C3 counterexample: two concept sets submitted as
`[hypertension, diabetes]` whose workers complete in the reverse order are
aggregated in completion order `[diabetes, hypertension]`, so the final list
does not preserve submission order. -/
theorem C3_counterexample :
    (final_concept_sets envSearch default_config 3 [csA, csB]
      [(1, true), (0, true)]).map SetResult.name =
      ["diabetes", "hypertension"] ∧
    ([csA, csB].map (fun cs =>
      process_single_concept_set envSearch cs default_config 3)).map
      SetResult.name = ["hypertension", "diabetes"] ∧
    ¬ final_concept_sets envSearch default_config 3 [csA, csB]
      [(1, true), (0, true)] =
      [csA, csB].map (fun cs =>
        process_single_concept_set envSearch cs default_config 3) := by
  refine ⟨rfl, rfl, ?_⟩
  intro hcon
  exact absurd (congrArg (List.map SetResult.name) hcon) (by decide)

/-- C3 (amended): the aggregated list contains exactly the per-set results —
one per concept set, a permutation of the submission-order results when
every worker completes once — but ordered by worker completion order; it
equals the submission order exactly when the workers complete in submission
order. -/
theorem C3_amended_completion_order (env : Env) (cfg : EngineConfig)
    (mq : Nat) (specs : List ConceptSetSpec) (events : List (Nat × Bool))
    (hok : ∀ e ∈ events, e.2 = true)
    (hperm : (events.map Prod.fst).Perm (List.range specs.length)) :
    (final_concept_sets env cfg mq specs events).Perm
      (specs.map (fun cs => process_single_concept_set env cs cfg mq)) ∧
    final_concept_sets env cfg mq specs
      ((List.range specs.length).map (fun i => (i, true))) =
      specs.map (fun cs => process_single_concept_set env cs cfg mq) := by
  constructor
  · unfold final_concept_sets
    rw [final_concept_sets_all_ok env cfg mq specs events [] hok]
    rw [List.nil_append]
    have hp := hperm.filterMap
      (fun i => (specs[i]?).map (fun cs => process_single_concept_set env cs cfg mq))
    rw [range_filterMap_get] at hp
    exact hp
  · unfold final_concept_sets
    rw [final_concept_sets_all_ok env cfg mq specs
      ((List.range specs.length).map (fun i => (i, true))) []
      (by
        intro e he
        rcases List.mem_map.mp he with ⟨i, _, rfl⟩
        rfl)]
    rw [List.nil_append, List.map_map]
    have hfst : (Prod.fst ∘ fun i : Nat => (i, true)) = fun i : Nat => i := by
      funext i
      rfl
    rw [hfst, List.map_id_fun']
    exact range_filterMap_get _ specs

/-- C3 amended witness: concrete two-set instance with reversed completion
order — the aggregate is a permutation of (but not equal to) the
submission-order results. -/
theorem C3_amended_witness :
    (final_concept_sets envSearch default_config 3 [csA, csB]
      [(1, true), (0, true)]).Perm
      ([csA, csB].map (fun cs =>
        process_single_concept_set envSearch cs default_config 3)) ∧
    final_concept_sets envSearch default_config 3 [csA, csB]
      ((List.range 2).map (fun i => (i, true))) =
      [csA, csB].map (fun cs =>
        process_single_concept_set envSearch cs default_config 3) :=
  C3_amended_completion_order envSearch default_config 3 [csA, csB]
    [(1, true), (0, true)] (by decide) (by decide)

/-- C4 counterexample: scenario B completes one full iteration (one batch
dispatched and decided), yet `history` stays empty and the finalized outcome
carries an empty history — no per-iteration record is ever appended and
`HISTORY_LIMIT` is never consulted. -/
theorem C4_counterexample :
    scenarioB_run.batches.length = 1 ∧
    scenarioB_run.state.history = [] ∧
    scenarioB_outcome.history = [] := by
  refine ⟨by decide, ?_, ?_⟩
  · rfl
  · rfl

/-- C4 (amended): the engine never appends to `history` — the loop leaves it
exactly as it started (empty, from the initial state), and
`_finalize_resolution` copies it unchanged into the outcome; the bounded
FIFO log of the claim does not exist in the code. -/
theorem C4_amended_history_never_written :
    (∀ (env : Env) (term : String) (ma fuel : Nat) (qs : QueueState)
      (it : Nat),
      (exploration_loop env term ma fuel qs it).state.history = qs.history) ∧
    (∀ qs : QueueState, (finalize_resolution qs).history = qs.history) ∧
    (∀ (env : Env) (term : String) (ma fuel : Nat) (seeds : List Int)
      (msg : Option String) (cfg : EngineConfig) (it : Nat),
      (exploration_loop env term ma fuel
        (init_queue_state seeds msg cfg) it).state.history = []) :=
  ⟨fun env term ma fuel qs it => loop_history env term ma fuel qs it,
   fun qs => (finalize_carries qs).1,
   fun env term ma fuel seeds msg cfg it =>
     loop_history env term ma fuel (init_queue_state seeds msg cfg) it⟩

/-- C5 counterexample: with `MAX_ACCEPTED_PER_SET = 1` (an environment
knob of the source) the short-circuit acceptance of seed 700 reaches the
threshold pre-oracle; the engine halts with `enough_matches` having
dispatched the batch `[700]` but WITHOUT the claimed bookkeeping: the
batch is not marked visited and `visit_count` is not incremented. -/
theorem C5_counterexample :
    scenario700_run.batches = [[700]] ∧
    scenario700_run.state.stop_reason = some "enough_matches" ∧
    scenario700_run.state.visit_count = 0 ∧
    scenario700_run.state.visited = [] ∧
    scenario700_run.state.accepted_concepts.length = 1 := by
  refine ⟨by decide, by decide, by decide, by decide, by decide⟩

/-- C5 (amended): when `acceptedConcepts` reaches `MAX_ACCEPTED_PER_SET`
at the pre-oracle short-circuit check, the body halts immediately with
`stop_reason = "enough_matches"`, skipping that batch's bookkeeping:
`visit_count` and `visited` are left untouched (the dispatched instances
were already consumed from `pending` at batch selection); only the
post-oracle threshold check halts after full bookkeeping. -/
theorem C5_amended_short_circuit_halt_skips_bookkeeping (env : Env)
    (term : String) (ma : Nat) (qs : QueueState) (it : Nat)
    (ht : env.timeoutAt it = false)
    (hb : (queue_next_batch qs).1.has_batch = true)
    (hsc : (apply_short_circuit (queue_next_batch qs).2
      (batch_concepts env (queue_next_batch qs).1.ids) term ma).2 = true) :
    run_body env term ma qs it =
      { state := (apply_short_circuit (queue_next_batch qs).2
          (batch_concepts env (queue_next_batch qs).1.ids) term ma).1
        halted := true
        dispatched := (queue_next_batch qs).1.ids
        counted := [] } ∧
    (run_body env term ma qs it).state.visit_count = qs.visit_count ∧
    (run_body env term ma qs it).state.visited = qs.visited ∧
    (run_body env term ma qs it).state.stop_reason = some "enough_matches" ∧
    (run_body env term ma qs it).dispatched ≠ [] := by
  rcases run_body_cases env term ma qs it with
    ⟨ht2, h⟩ | ⟨ht2, hnb, h⟩ | ⟨ht2, hhb, hsc2, h⟩ | ⟨ht2, hhb, hsc2, hma, h⟩ |
    ⟨ht2, hhb, hsc2, hma, h⟩
  · rw [ht] at ht2
    exact Bool.noConfusion ht2
  · rw [hb] at hnb
    exact Bool.noConfusion hnb
  · obtain ⟨q1, q2, _, _, _, _, _, _, _, _, _, _⟩ := queue_next_batch_preserves qs
    obtain ⟨_, s2, s3, _, _, _, _, _, _, _, _, _, shalt, _, _⟩ :=
      apply_short_circuit_preserves (queue_next_batch qs).2
        (batch_concepts env (queue_next_batch qs).1.ids) term ma
    refine ⟨h, ?_, ?_, ?_, ?_⟩
    · rw [h]
      rw [s3, q2]
    · rw [h]
      rw [s2, q1]
    · rw [h]
      exact shalt hsc2
    · rw [h]
      exact (queue_next_batch_has_batch qs hb).1
  · rw [hsc] at hsc2
    exact Bool.noConfusion hsc2
  · rw [hsc] at hsc2
    exact Bool.noConfusion hsc2

/-- C5 amended witness: the concrete 700 run, after batch selection, halts
at the short-circuit threshold with the batch neither visited nor
counted. -/
theorem C5_amended_witness :
    run_body env700 "atrial fibrillation" 1
      (init_queue_state [700] none cfg700) 1 =
      { state := (apply_short_circuit
          (queue_next_batch (init_queue_state [700] none cfg700)).2
          (batch_concepts env700
            (queue_next_batch (init_queue_state [700] none cfg700)).1.ids)
          "atrial fibrillation" 1).1
        halted := true
        dispatched := (queue_next_batch
          (init_queue_state [700] none cfg700)).1.ids
        counted := [] } ∧
    (run_body env700 "atrial fibrillation" 1
      (init_queue_state [700] none cfg700) 1).state.visit_count =
      (init_queue_state [700] none cfg700).visit_count ∧
    (run_body env700 "atrial fibrillation" 1
      (init_queue_state [700] none cfg700) 1).state.visited =
      (init_queue_state [700] none cfg700).visited ∧
    (run_body env700 "atrial fibrillation" 1
      (init_queue_state [700] none cfg700) 1).state.stop_reason =
      some "enough_matches" ∧
    (run_body env700 "atrial fibrillation" 1
      (init_queue_state [700] none cfg700) 1).dispatched ≠ [] :=
  C5_amended_short_circuit_halt_skips_bookkeeping env700 "atrial fibrillation"
    1 (init_queue_state [700] none cfg700) 1 (by decide) (by decide) (by decide)

/-- C6 counterexample: the duplicate seed list `[100, 100]` is dispatched as
one batch of two items; `visit_count` becomes 2 although only one distinct
concept id (100) was dispatched (`visited = [100]`). -/
theorem C6_counterexample :
    scenarioDup_run.batches.flatten = [100, 100] ∧
    scenarioDup_run.state.visit_count = 2 ∧
    scenarioDup_run.state.visited = [100] ∧
    scenarioDup_run.batches.flatten.dedup = [100] ∧
    ¬ scenarioDup_run.state.visit_count =
      scenarioDup_run.batches.flatten.dedup.length := by
  refine ⟨by decide, by decide, by decide, by decide, by decide⟩

/-- C6 (amended): after any run, `visit_count` equals the total number of
queue items that reached the queue update, counted WITH multiplicity (the
update increments once per dispatched id, deduplicating only `visited`), so
a duplicated seed id dispatched twice in one batch is double-counted. -/
theorem C6_amended_visit_count_multiplicity (env : Env) (term : String)
    (ma fuel : Nat) (seeds : List Int) (msg : Option String)
    (cfg : EngineConfig) (it : Nat) :
    (exploration_loop env term ma fuel
      (init_queue_state seeds msg cfg) it).state.visit_count =
      (exploration_loop env term ma fuel
        (init_queue_state seeds msg cfg) it).counted.flatten.length := by
  have h := loop_visit_count env term ma fuel
    (init_queue_state seeds msg cfg) it
  have hz : (init_queue_state seeds msg cfg).visit_count = 0 := rfl
  rw [hz] at h
  simpa using h

/-- C7: the stagnation guard is dead code. In every run from an initial
state — for any environment, in particular the spec's scenario of an oracle
that always re-suggests the same rejected candidate — the post-batch queue
head always differs from `lastHeadId` (the recorded head was itself
dispatched, removed from `pending`, and barred from re-entry via `visited`),
so `stagnationCount` stays 0 and `stopReason = "stagnation"` is never
produced; the concrete re-suggesting run instead drains its queue and ends
with `stopReason = None`. -/
theorem C7_stagnation_guard_unreachable :
    (∀ (env : Env) (term : String) (ma fuel : Nat) (seeds : List Int)
      (msg : Option String) (cfg : EngineConfig) (it : Nat),
      (exploration_loop env term ma fuel
        (init_queue_state seeds msg cfg) it).state.stagnation_count = 0 ∧
      ¬ (exploration_loop env term ma fuel
        (init_queue_state seeds msg cfg) it).state.stop_reason =
        some "stagnation") ∧
    scenarioStag_run.state.stop_reason = none ∧
    scenarioStag_run.state.stagnation_count = 0 ∧
    scenarioStag_run.state.visit_count = 2 := by
  refine ⟨?_, by decide, by decide, by decide⟩
  intro env term ma fuel seeds msg cfg it
  have hinv : StagInv (init_queue_state seeds msg cfg) :=
    ⟨rfl, fun it2 _ => Or.inl rfl⟩
  have h := loop_staginv env term ma fuel (init_queue_state seeds msg cfg)
    it hinv
  refine ⟨h.1, ?_⟩
  rcases h.2 with hr | hr | hr
  · rw [hr]
    intro hcon
    exact Option.noConfusion hcon
  · rw [hr]
    intro hcon
    have : "timeout" = "stagnation" := Option.some.inj hcon
    exact absurd this (by decide)
  · rw [hr]
    intro hcon
    have : "enough_matches" = "stagnation" := Option.some.inj hcon
    exact absurd this (by decide)

/-- C8: if the dispatched batch contains a concept whose standard flag is
set (normalized value `"standard"`), whose name or a synonym normalizes to
an exact match of the search term or contains every significant token
(length ≥ 3) of it, and whose vocabulary/class passes the domain gating,
and it is the first such concept in batch order, then the short-circuit
rule reports it with `match_type` evidence `"exact"` versus
`"strong_token"`, and the concept is accepted into `accepted_concepts` by
the pre-oracle short-circuit block — and stays accepted after the queue
update under EVERY possible oracle decision list, so the acceptance never
requires the oracle call of that iteration. -/
theorem C8_short_circuit_accepts_before_oracle (term : String)
    (pre post : List FetchedConcept) (c : FetchedConcept) (reason : String)
    (inc : IncludedConcept) (ma : Nat) (qs : QueueState)
    (hstd : lowerStr (c.details.standardConcept.getD "") = "standard")
    (hmatch : (sc_exact_match (normStr term) c.details ||
      sc_strong_match (sigTokens (normStr term)) c.details) = true)
    (hgate : sc_gate (upperStr (c.details.vocabularyId.getD ""))
      (c.details.conceptClassId.getD "") = some reason)
    (hfirst : ∀ x ∈ pre, sc_check_concept (normStr term)
      (sigTokens (normStr term)) x = none)
    (hid : c.details.id = some c.concept_id)
    (hfind : (pre ++ c :: post).find?
      (fun x => decide (x.concept_id = c.concept_id)) = some c)
    (hinc : included_from_details (some c.concept_id) c.details = some inc)
    (hfresh : qs.accepted_concepts.all
      (fun x => decide (x.concept_id ≠ c.concept_id)) = true) :
    try_short_circuit_resolution (pre ++ c :: post) term =
      some { concept_id := some c.concept_id
             reason := reason
             match_type := if sc_exact_match (normStr term) c.details
               then "exact" else "strong_token" } ∧
    inc ∈ (apply_short_circuit qs (pre ++ c :: post) term
      ma).1.accepted_concepts ∧
    (∀ (ids : List Int) (depths : List Nat)
      (decisions : List ConceptDecision),
      inc ∈ (update_queue_from_batch
        (apply_short_circuit qs (pre ++ c :: post) term ma).1
        ids depths (pre ++ c :: post) decisions).accepted_concepts) := by
  have hcheck := sc_check_positive (normStr term) (sigTokens (normStr term))
    c reason hstd hmatch hgate
  have hscid := sc_concept_id_of_id c hid
  have htsc : try_short_circuit_resolution (pre ++ c :: post) term =
      some { concept_id := some c.concept_id
             reason := reason
             match_type := if sc_exact_match (normStr term) c.details
               then "exact" else "strong_token" } := by
    unfold try_short_circuit_resolution
    refine findSome_append_first _ _ pre c post hfirst ?_
    rw [hcheck, hscid]
  have hacc := sc_accept_positive qs (pre ++ c :: post)
    { concept_id := some c.concept_id
      reason := reason
      match_type := if sc_exact_match (normStr term) c.details
        then "exact" else "strong_token" }
    c.concept_id c inc rfl hfind hinc hfresh
  have happ := apply_short_circuit_of_some qs (pre ++ c :: post) term ma _
    htsc
  have hmem : inc ∈ (apply_short_circuit qs (pre ++ c :: post) term
      ma).1.accepted_concepts := by
    rw [happ]
    by_cases hma2 : ma ≤ (sc_accept qs (pre ++ c :: post)
        { concept_id := some c.concept_id
          reason := reason
          match_type := if sc_exact_match (normStr term) c.details
            then "exact" else "strong_token" }).accepted_concepts.length
    · rw [if_pos hma2]
      rw [hacc] at hma2 ⊢
      simp
    · rw [if_neg hma2]
      rw [hacc]
      simp
  refine ⟨htsc, hmem, ?_⟩
  intro ids depths decisions
  exact (update_queue_facts
    (apply_short_circuit qs (pre ++ c :: post) term ma).1
    ids depths (pre ++ c :: post) decisions).2.2.2.2.2.2.2.2.2.2.2.2
    inc hmem

/-- C8 witness: concept 700, standard SNOMED Clinical Finding named exactly
"atrial fibrillation", alone in its batch, is accepted by the short-circuit
rule with `match_type = "exact"` before (and regardless of) any oracle
decisions. -/
theorem C8_witness :
    try_short_circuit_resolution
      [{ concept_id := 700, details := details700 }] "atrial fibrillation" =
      some { concept_id := some 700
             reason := "SNOMED condition exact/strong match"
             match_type := if sc_exact_match (normStr "atrial fibrillation")
               details700 then "exact" else "strong_token" } ∧
    { concept_id := 700, concept_name := "Atrial fibrillation"
      domain_id := "Condition", vocabulary_id := "SNOMED"
      standard_concept := "Standard"
      concept_code := "49436004" } ∈
      (apply_short_circuit (init_queue_state [700] none cfg700)
        [{ concept_id := 700, details := details700 }]
        "atrial fibrillation" 1).1.accepted_concepts ∧
    { concept_id := 700, concept_name := "Atrial fibrillation"
      domain_id := "Condition", vocabulary_id := "SNOMED"
      standard_concept := "Standard"
      concept_code := "49436004" } ∈
      (update_queue_from_batch
        (apply_short_circuit (init_queue_state [700] none cfg700)
          [{ concept_id := 700, details := details700 }]
          "atrial fibrillation" 1).1
        [700] [0] [{ concept_id := 700, details := details700 }]
        [reject_decision 700]).accepted_concepts := by
  have h := C8_short_circuit_accepts_before_oracle "atrial fibrillation"
    [] [] { concept_id := 700, details := details700 }
    "SNOMED condition exact/strong match"
    { concept_id := 700, concept_name := "Atrial fibrillation"
      domain_id := "Condition", vocabulary_id := "SNOMED"
      standard_concept := "Standard"
      concept_code := "49436004" }
    1 (init_queue_state [700] none cfg700)
    (by decide) (by decide) (by decide)
    (by intro x hx; cases hx) (by decide) (by rfl) (by rfl) (by decide)
  exact ⟨h.1, h.2.1, h.2.2 [700] [0] [reject_decision 700]⟩

/-- C9 counterexample: when every search of a concept set returns no
candidates, the worker returns the degenerate result WITHOUT any
`resolution_outcome` (no status, no `stopReason`/`history`/`visitCount`
diagnostics), contradicting the claim that every submitted concept set
yields a result containing a well-formed resolution outcome. -/
theorem C9_counterexample :
    (process_single_concept_set envNoHits csA default_config 3
      ).resolution_outcome = none ∧
    (process_single_concept_set envNoHits csA default_config 3
      ).included_concepts = [] ∧
    (process_single_concept_set envNoHits csA default_config 3).name =
      "hypertension" := by
  refine ⟨rfl, rfl, rfl⟩

/-- C9 (amended): whenever at least one search returns candidates, the
worker's result carries a resolution outcome whose status is one of
`resolved`/`fallback`/`unresolved` and which copies the final exploration
state's `stopReason`, `history` and `visitCount`; the no-candidates path
(and the orchestrator's worker-failure fallback) instead degrade to an
empty result with no outcome — in all cases a result object is returned
rather than an exception (modelled by totality of the embedding). -/
theorem C9_amended_outcome_when_candidates (env : Env) (cs : ConceptSetSpec)
    (cfg : EngineConfig) (mq : Nat)
    (hne : (gather_search_results env cs mq).isEmpty = false) :
    ∃ o : ResolutionOutcome,
      (process_single_concept_set env cs cfg mq).resolution_outcome =
        some o ∧
      (o.status = "resolved" ∨ o.status = "fallback" ∨
        o.status = "unresolved") ∧
      ∃ final : QueueState, o = finalize_resolution final ∧
        o.history = final.history ∧
        o.visit_count = final.visit_count ∧
        o.stop_reason = final.stop_reason := by
  refine ⟨finalize_resolution
    (exploration_loop env cs.name cfg.max_accepted (sufficient_fuel cfg)
      (init_queue_state
        (match env.select with
          | some ids => ids
          | none => fallback_selection (gather_search_results env cs mq))
        env.select_message cfg) 0).state,
    process_with_hits env cs cfg mq hne, finalize_status _, _, rfl,
    (finalize_carries _).1, (finalize_carries _).2.1,
    (finalize_carries _).2.2.1⟩

/-- C9 amended witness: the two-query concept set `hypertension` against the
one-candidate search environment gets a well-formed outcome. -/
theorem C9_amended_witness :
    ∃ o : ResolutionOutcome,
      (process_single_concept_set envSearch csA default_config 3
        ).resolution_outcome = some o ∧
      (o.status = "resolved" ∨ o.status = "fallback" ∨
        o.status = "unresolved") ∧
      ∃ final : QueueState, o = finalize_resolution final ∧
        o.history = final.history ∧
        o.visit_count = final.visit_count ∧
        o.stop_reason = final.stop_reason :=
  C9_amended_outcome_when_candidates envSearch csA default_config 3 (by rfl)

/-- C10: every state the engine can reach from an initial seed state keeps
every pending item's depth within `maxDepth` — seeds enter at depth 0 and a
suggested child is enqueued only when its depth (parent + 1) is within the
bound — and consequently `_queue_next_batch` never reports
`depth_limit_hit` on any reachable state: the depth-limit halt branch is
unreachable in any run. -/
theorem C10_pending_depth_bounded (env : Env) (term : String) (ma : Nat)
    (seeds : List Int) (msg : Option String) (cfg : EngineConfig)
    (s : QueueState)
    (h : EngineReach env term ma (init_queue_state seeds msg cfg) s) :
    pending_depth_inv s ∧
    (queue_next_batch s).1.depth_limit_hit = false := by
  have hinv : pending_depth_inv s := by
    induction h with
    | init =>
      intro item hitem
      unfold init_queue_state at hitem
      simp only at hitem
      rcases List.mem_map.mp hitem with ⟨cid, _, rfl⟩
      exact Nat.zero_le _
    | step s2 it h2 ih =>
      exact run_body_depth_inv env term ma s2 it ih
  exact ⟨hinv, queue_next_batch_no_depth_hit s hinv⟩

/-- C10 witness: the initial scenario-B state itself. -/
theorem C10_witness :
    pending_depth_inv (init_queue_state [500] none cfgB) ∧
    (queue_next_batch (init_queue_state [500] none cfgB)
      ).1.depth_limit_hit = false :=
  C10_pending_depth_bounded envB "seed concept" 3 [500] none cfgB
    (init_queue_state [500] none cfgB) EngineReach.init
